import Mathlib

/-!
Verification of the identifier-migration script
`src/data/external/processing/common_katakana_words/migrate_ids.py`.

Strings are modelled as lists of characters (`Str`); a file's content is
modelled as its list of lines (the Python code splits the content on a
newline character, rewrites lines, and joins with a newline, so the line
list determines the written bytes exactly).  Python dictionaries are
modelled as association lists in insertion order, with lookup returning the
most recently inserted binding.  Python decimal rendering of a natural
number (an f-string such as f"{row_num}") is modelled by `decStr`;
zero-padded rendering f"{n:02d}" by `pad2`.
-/

set_option maxRecDepth 10000

abbrev Str := List Char

/-- Characters stripped by Python str.strip() (the ASCII whitespace set,
which is all that occurs in the files at hand). -/
def pyIsSpace (c : Char) : Bool :=
  c = ' ' || c = '\t' || c = '\n' || c = '\x0d' || c = '\x0b' || c = '\x0c'

/-- Python str.strip(): drop whitespace at both ends. -/
def pyStrip (l : Str) : Str :=
  ((l.dropWhile pyIsSpace).reverse.dropWhile pyIsSpace).reverse

/-- Fuel-driven decimal rendering helper; any fuel at least the rendered
number is enough, and the fuel-exhausted branch is then unreachable. -/
def decStrAux : Nat → Nat → Str
  | 0, n => [Nat.digitChar n]
  | fuel + 1, n =>
    if n < 10 then [Nat.digitChar n]
    else decStrAux fuel (n / 10) ++ [Nat.digitChar (n % 10)]

/-- Decimal rendering of a natural number, as Python str(n) produces it. -/
def decStr (n : Nat) : Str := decStrAux n n

theorem decStrAux_fuel {f g n : Nat} (hf : n ≤ f) (hg : n ≤ g) :
    decStrAux f n = decStrAux g n := by
  induction n using Nat.strong_induction_on generalizing f g with
  | _ n ih =>
    match f, g with
    | 0, 0 => rfl
    | 0, g + 1 =>
      interval_cases n
      all_goals simp [decStrAux]
    | f + 1, 0 =>
      interval_cases n
      all_goals simp [decStrAux]
    | f + 1, g + 1 =>
      by_cases h10 : n < 10
      · simp [decStrAux, h10]
      · have hdiv : n / 10 < n := Nat.div_lt_self (by omega) (by omega)
        simp only [decStrAux, if_neg h10]
        rw [ih (n / 10) hdiv (f := f) (g := g) (by omega) (by omega)]

theorem decStr_eq (n : Nat) :
    decStr n = if n < 10 then [Nat.digitChar n]
               else decStr (n / 10) ++ [Nat.digitChar (n % 10)] := by
  by_cases h10 : n < 10
  · simp only [if_pos h10, decStr]
    match n, h10 with
    | 0, _ => rfl
    | n + 1, h => simp [decStrAux, h]
  · simp only [if_neg h10, decStr]
    obtain ⟨m, rfl⟩ : ∃ m, n = m + 1 := ⟨n - 1, by omega⟩
    simp only [decStrAux, if_neg h10]
    rw [decStrAux_fuel (show (m + 1) / 10 ≤ m by omega) (Nat.le_refl ((m + 1) / 10))]

/-- Decimal decoding, used only to prove that decimal rendering is
injective. -/
def decVal (l : Str) : Nat :=
  l.foldl (fun acc c => acc * 10 + (c.toNat - 48)) 0

theorem decVal_digitChar {d : Nat} (hd : d < 10) :
    (Nat.digitChar d).toNat - 48 = d := by
  interval_cases d <;> rfl

theorem decVal_append_last (l : Str) (c : Char) :
    decVal (l ++ [c]) = decVal l * 10 + (c.toNat - 48) := by
  simp [decVal, List.foldl_append]

theorem decVal_decStr (n : Nat) : decVal (decStr n) = n := by
  induction n using Nat.strong_induction_on with
  | _ n ih =>
    rw [decStr_eq]
    by_cases h10 : n < 10
    · simp only [if_pos h10, decVal, List.foldl_cons, List.foldl_nil]
      rw [Nat.zero_mul, Nat.zero_add, decVal_digitChar h10]
    · have hdiv : n / 10 < n := Nat.div_lt_self (by omega) (by omega)
      simp only [if_neg h10]
      rw [decVal_append_last, ih (n / 10) hdiv, decVal_digitChar (Nat.mod_lt _ (by omega))]
      omega

theorem decStr_inj {m n : Nat} (h : decStr m = decStr n) : m = n := by
  have hm := decVal_decStr m
  rw [h, decVal_decStr] at hm
  exact hm.symm

theorem decStr_ne_nil (n : Nat) : decStr n ≠ [] := by
  rw [decStr_eq]
  by_cases h10 : n < 10 <;> simp [h10]

theorem digitChar_isDigit {d : Nat} (hd : d < 10) : (Nat.digitChar d).isDigit = true := by
  interval_cases d <;> rfl

theorem decStr_all_digits (n : Nat) : ∀ c ∈ decStr n, c.isDigit = true := by
  induction n using Nat.strong_induction_on with
  | _ n ih =>
    rw [decStr_eq]
    by_cases h10 : n < 10
    · simp only [if_pos h10, List.mem_singleton]
      rintro c rfl
      exact digitChar_isDigit h10
    · have hdiv : n / 10 < n := Nat.div_lt_self (by omega) (by omega)
      simp only [if_neg h10, List.mem_append, List.mem_singleton]
      rintro c (hc | rfl)
      · exact ih (n / 10) hdiv c hc
      · exact digitChar_isDigit (Nat.mod_lt _ (by omega))

theorem decStr_no_dash (n : Nat) : ∀ c ∈ decStr n, c ≠ '-' := by
  intro c hc
  have := decStr_all_digits n c hc
  intro h
  rw [h] at this
  exact absurd this (by decide)

/-- Zero-padded two-digit rendering, as the f-string f"{n:02d}" produces it
for nonnegative n. -/
def pad2 (n : Nat) : Str := if n < 10 then '0' :: decStr n else decStr n

/-- The identifier string f"ckw-l{lesson:02d}-{disamb}" built by the
script for a lesson number and a disambiguator (rank for old identifiers,
TSV row number for new identifiers). -/
def mkId (lesson disamb : Nat) : Str :=
  ("ckw-l").data ++ pad2 lesson ++ '-' :: decStr disamb

theorem pad2_all_digits (n : Nat) : ∀ c ∈ pad2 n, c.isDigit = true := by
  intro c hc
  unfold pad2 at hc
  by_cases h10 : n < 10
  · rw [if_pos h10] at hc
    rcases List.mem_cons.mp hc with rfl | hmem
    · rfl
    · exact decStr_all_digits n c hmem
  · rw [if_neg h10] at hc
    exact decStr_all_digits n c hc

theorem pad2_ne_nil (n : Nat) : pad2 n ≠ [] := by
  unfold pad2
  by_cases h10 : n < 10
  · simp [h10]
  · simp [h10, decStr_ne_nil]

theorem isDigit_ne_dash {c : Char} (h : c.isDigit = true) : c ≠ '-' := by
  intro hc
  rw [hc] at h
  exact absurd h (by decide)

/-- Splitting at a dash is unambiguous when neither left part contains a
dash. -/
theorem dash_split {a b c d : Str} (ha : ∀ x ∈ a, x ≠ '-') (hb : ∀ x ∈ b, x ≠ '-')
    (h : a ++ '-' :: c = b ++ '-' :: d) : a = b ∧ c = d := by
  induction a generalizing b with
  | nil =>
    cases b with
    | nil => simpa using h
    | cons y ys =>
      simp only [List.nil_append, List.cons_append, List.cons.injEq] at h
      exact absurd h.1.symm (hb y (List.mem_cons_self y ys))
  | cons x xs ih =>
    cases b with
    | nil =>
      simp only [List.cons_append, List.nil_append, List.cons.injEq] at h
      exact absurd h.1 (ha x (List.mem_cons_self x xs))
    | cons y ys =>
      simp only [List.cons_append, List.cons.injEq] at h
      obtain ⟨rfl, h2⟩ := h
      have := ih (fun z hz => ha z (List.mem_cons_of_mem x hz))
        (fun z hz => hb z (List.mem_cons_of_mem x hz)) h2
      exact ⟨by rw [this.1], this.2⟩

/-- Identifier strings determine the disambiguator: two rendered
identifiers are equal only if their trailing numbers are equal. -/
theorem mkId_inj_row {l1 l2 r1 r2 : Nat} (h : mkId l1 r1 = mkId l2 r2) : r1 = r2 := by
  unfold mkId at h
  rw [List.append_assoc, List.append_assoc] at h
  have h' := List.append_cancel_left h
  have hsplit := dash_split
    (fun x hx => isDigit_ne_dash (pad2_all_digits l1 x hx))
    (fun x hx => isDigit_ne_dash (pad2_all_digits l2 x hx)) h'
  exact decStr_inj hsplit.2

theorem mkId_inj_lesson {l1 l2 r1 r2 : Nat} (h : mkId l1 r1 = mkId l2 r2) :
    pad2 l1 = pad2 l2 := by
  unfold mkId at h
  rw [List.append_assoc, List.append_assoc] at h
  have h' := List.append_cancel_left h
  exact (dash_split
    (fun x hx => isDigit_ne_dash (pad2_all_digits l1 x hx))
    (fun x hx => isDigit_ne_dash (pad2_all_digits l2 x hx)) h').1

/-- Shape of the tail after the literal "ckw-l" in the identifier pattern
ckw-l digits dash digits, anchored to the end of the string. -/
def idTail (w : Str) : Bool :=
  decide (w.takeWhile Char.isDigit ≠ []) &&
    (match w.dropWhile Char.isDigit with
     | '-' :: r2 => decide (r2 ≠ []) && r2.all Char.isDigit
     | _ => false)

/-- Whether a string matches the anchored identifier pattern of the regexes
in the script (the group ckw-l backslash-d plus dash backslash-d plus). -/
def idShape (w : Str) : Bool :=
  match w with
  | 'c' :: 'k' :: 'w' :: '-' :: 'l' :: rest => idTail rest
  | _ => false

theorem takeWhile_append_all {p : Char → Bool} {a : Str} {c : Char} (b : Str)
    (ha : ∀ x ∈ a, p x = true) (hc : p c = false) :
    (a ++ c :: b).takeWhile p = a := by
  induction a with
  | nil => simp [List.takeWhile_cons, hc]
  | cons x xs ih =>
    have hx := ha x (List.mem_cons_self x xs)
    have ih' := ih (fun z hz => ha z (List.mem_cons_of_mem x hz))
    simp [List.takeWhile_cons, hx, ih']

theorem dropWhile_append_all {p : Char → Bool} {a : Str} {c : Char} (b : Str)
    (ha : ∀ x ∈ a, p x = true) (hc : p c = false) :
    (a ++ c :: b).dropWhile p = c :: b := by
  induction a with
  | nil => simp [List.dropWhile_cons, hc]
  | cons x xs ih =>
    have hx := ha x (List.mem_cons_self x xs)
    have ih' := ih (fun z hz => ha z (List.mem_cons_of_mem x hz))
    simp [List.dropWhile_cons, hx, ih']

theorem mkId_cons (lesson disamb : Nat) :
    mkId lesson disamb =
      'c' :: 'k' :: 'w' :: '-' :: 'l' :: (pad2 lesson ++ '-' :: decStr disamb) := by
  unfold mkId
  rw [show ("ckw-l").data = ['c', 'k', 'w', '-', 'l'] from rfl]
  simp

/-- Every identifier the script generates matches the scanner pattern. -/
theorem idShape_mkId (lesson disamb : Nat) : idShape (mkId lesson disamb) = true := by
  rw [mkId_cons]
  show idTail (pad2 lesson ++ '-' :: decStr disamb) = true
  unfold idTail
  rw [takeWhile_append_all (p := Char.isDigit) (decStr disamb)
    (pad2_all_digits lesson) (by decide)]
  rw [dropWhile_append_all (p := Char.isDigit) (decStr disamb)
    (pad2_all_digits lesson) (by decide)]
  simp only [Bool.and_eq_true, decide_eq_true_eq, List.all_eq_true]
  exact ⟨pad2_ne_nil lesson, decStr_ne_nil disamb, fun x hx => decStr_all_digits disamb x hx⟩

/-- Scanner for a card identifier declaration line, modelling the Python
regex match of caret dash space id colon space, a captured identifier, and
the end anchor (line 110 of the script). -/
def matchCardId (l : Str) : Option Str :=
  match l with
  | '-' :: ' ' :: 'i' :: 'd' :: ':' :: ' ' :: w => if idShape w then some w else none
  | _ => none

/-- Scanner for a lesson membership line, modelling the Python regex match
of caret, captured whitespace-dash-space, a captured identifier and the end
anchor (line 184 of the script).  Backtracking cannot move the boundary
because the class of whitespace characters excludes the dash, so maximal
munch is faithful. -/
def matchLessonId (l : Str) : Option (Str × Str) :=
  match l.takeWhile pyIsSpace, l.dropWhile pyIsSpace with
  | [], _ => none
  | _ :: _, '-' :: ' ' :: w => if idShape w then some (l.takeWhile pyIsSpace ++ ['-', ' '], w) else none
  | _, _ => none

/-- Scanner for an answer line, modelling the Python regex match of caret,
whitespace, dash space and a nonempty captured rest (line 117 of the
script). -/
def matchAnswer (l : Str) : Option Str :=
  match l.takeWhile pyIsSpace, l.dropWhile pyIsSpace with
  | [], _ => none
  | _ :: _, '-' :: ' ' :: w => if w ≠ [] then some w else none
  | _, _ => none

/-- The test on line 178 of the script: stripped line equals ids colon, or
starts with it. -/
def isIdsHeader (l : Str) : Bool :=
  pyStrip l == ("ids:").data || ("ids:").data.isPrefixOf (pyStrip l)

/-- Python str.startswith with a single-space argument. -/
def startsWithSpace (l : Str) : Bool :=
  match l with
  | ' ' :: _ => true
  | _ => false

/-- The membership-list exit test on line 196 of the script: nonempty after
stripping and not starting with a space. -/
def isExitLine (l : Str) : Bool :=
  decide (pyStrip l ≠ []) && !startsWithSpace l

theorem matchCardId_mk {w : Str} (h : idShape w = true) :
    matchCardId ('-' :: ' ' :: 'i' :: 'd' :: ':' :: ' ' :: w) = some w := by
  simp [matchCardId, h]

theorem matchCardId_some {l w : Str} (h : matchCardId l = some w) :
    l = '-' :: ' ' :: 'i' :: 'd' :: ':' :: ' ' :: w ∧ idShape w = true := by
  unfold matchCardId at h
  split at h
  · split at h
    · rename_i hshape
      cases h
      exact ⟨rfl, hshape⟩
    · cases h
  · cases h

theorem dropWhile_append_last {p : Char → Bool} {c : Char} (a : Str) (hc : p c = false) :
    (a ++ [c]).dropWhile p = a.dropWhile p ++ [c] := by
  induction a with
  | nil => simp [List.dropWhile_cons, hc]
  | cons x xs ih =>
    by_cases hx : p x = true
    · simp [List.dropWhile_cons, hx, ih]
    · rw [Bool.not_eq_true] at hx
      simp [List.dropWhile_cons, hx]

/-- A line whose space-stripped remainder starts with a dash strips to a
string starting with a dash. -/
theorem pyStrip_dash {l rest : Str} (h : l.dropWhile pyIsSpace = '-' :: rest) :
    ∃ t, pyStrip l = '-' :: t := by
  unfold pyStrip
  rw [h]
  have : ('-' :: rest).reverse = rest.reverse ++ ['-'] := by simp
  rw [this, dropWhile_append_last rest.reverse (by decide)]
  exact ⟨(rest.reverse.dropWhile pyIsSpace).reverse, by simp⟩

theorem isIdsHeader_of_dash {l rest : Str} (h : l.dropWhile pyIsSpace = '-' :: rest) :
    isIdsHeader l = false := by
  obtain ⟨t, ht⟩ := pyStrip_dash h
  unfold isIdsHeader
  rw [ht]
  rfl

theorem pyStrip_cardId (w : Str) :
    ∃ t, pyStrip ('-' :: ' ' :: 'i' :: 'd' :: ':' :: ' ' :: w) = '-' :: t :=
  pyStrip_dash (l := '-' :: ' ' :: 'i' :: 'd' :: ':' :: ' ' :: w) (by rfl)

theorem matchAnswer_cardId (w : Str) :
    matchAnswer ('-' :: ' ' :: 'i' :: 'd' :: ':' :: ' ' :: w) = none := by
  rfl

/-- Round trip for the lesson membership scanner on a generated line. -/
theorem matchLessonId_mk {ws w : Str} (hne : ws ≠ []) (hws : ∀ c ∈ ws, pyIsSpace c = true)
    (hw : idShape w = true) :
    matchLessonId (ws ++ '-' :: ' ' :: w) = some (ws ++ ['-', ' '], w) := by
  unfold matchLessonId
  rw [takeWhile_append_all (p := pyIsSpace) (' ' :: w) hws (by decide),
      dropWhile_append_all (p := pyIsSpace) (' ' :: w) hws (by decide)]
  match ws, hne with
  | x :: xs, _ => simp [hw]

theorem matchLessonId_some {l ind w : Str} (h : matchLessonId l = some (ind, w)) :
    ∃ ws, ws ≠ [] ∧ (∀ c ∈ ws, pyIsSpace c = true) ∧ ind = ws ++ ['-', ' '] ∧
      l = ws ++ '-' :: ' ' :: w ∧ idShape w = true := by
  unfold matchLessonId at h
  split at h
  · cases h
  · split at h
    · rename_i heq1 heq2 hshape
      cases h
      refine ⟨l.takeWhile pyIsSpace, ?_, ?_, rfl, ?_, hshape⟩
      · rw [heq1]
        simp
      · intro c hc
        exact List.mem_takeWhile_imp hc
      · conv_lhs => rw [(List.takeWhile_append_dropWhile (p := pyIsSpace) (l := l)).symm]
        rw [heq2]
    · cases h
  · cases h

/-- One loaded word: the dictionary with keys rank, row_num and lemma built
on lines 39 to 43 of the script (`lem` stands for the lemma column). -/
structure Row where
  rank : Nat
  row_num : Nat
  lem : Str
  deriving DecidableEq

def WORDS_PER_LESSON : Nat := 15

/-- Lesson number of the word at global sequence index i (0-based), as
computed by i floor-div WORDS_PER_LESSON plus one. -/
def lessonOf (i : Nat) : Nat := i / WORDS_PER_LESSON + 1

/-- Old (rank-based) identifier of the word at index i. -/
def oldIdOf (i : Nat) (w : Row) : Str := mkId (lessonOf i) w.rank

/-- New (row-number-based) identifier of the word at index i. -/
def newIdOf (i : Nat) (w : Row) : Str := mkId (lessonOf i) w.row_num

/-- Python dict lookup for a dict built by inserting bindings in list
order: the most recently inserted binding for the key wins. -/
def dlookup {α β : Type} [DecidableEq α] (m : List (α × β)) (k : α) : Option β :=
  (m.reverse.find? (fun e => decide (e.1 = k))).map Prod.snd

def build_lemma_mapping_aux (i : Nat) : List Row → List ((Str × Str) × Str)
  | [] => []
  | w :: ws => ((oldIdOf i w, w.lem), newIdOf i w) :: build_lemma_mapping_aux (i + 1) ws

/-- The content map of lines 72 to 80: for every word, insert the binding
from (old identifier, lemma) to the new identifier, in sequence order. -/
def build_lemma_mapping (rows : List Row) : List ((Str × Str) × Str) :=
  build_lemma_mapping_aux 0 rows

def build_positional_mapping_aux (i : Nat) : List Row → List (Str × Str)
  | [] => []
  | w :: ws => (oldIdOf i w, newIdOf i w) :: build_positional_mapping_aux (i + 1) ws

/-- The positional map of lines 83 to 91: the ordered list of
(old identifier, new identifier) pairs, one per word, in sequence order. -/
def build_positional_mapping (rows : List Row) : List (Str × Str) :=
  build_positional_mapping_aux 0 rows

/-- The look-ahead of lines 114 to 120: scan at most nine lines beyond the
identifier line for the first match of the answer pattern whose preceding
line strips to the answers heading; the scan starts with the identifier
line itself as the preceding line. -/
def findLemmaAux : Str → List Str → Nat → Option Str
  | _, _, 0 => none
  | _, [], _ => none
  | prev, l :: ls, fuel + 1 =>
    match matchAnswer l with
    | some cap =>
      if pyStrip prev = ("answers:").data then some cap else findLemmaAux l ls fuel
    | none => findLemmaAux l ls fuel

def findLemma (line : Str) (rest : List Str) : Option Str :=
  findLemmaAux line rest 9

/-- The card-file rewriting loop of lines 105 to 132, returning the new
line list and the number of identifier changes.  A key whose lemma
component could not be found (Python None) is absent from the string-keyed
map, so the bind models the containment test on line 123. -/
def update_card_lines (m : List ((Str × Str) × Str)) : List Str → List Str × Nat
  | [] => ([], 0)
  | line :: rest =>
    let r := update_card_lines m rest
    match matchCardId line with
    | some old_id =>
      match (findLemma line rest).bind (fun lm => dlookup m (old_id, lm)) with
      | some new_id =>
        if old_id ≠ new_id then
          (('-' :: ' ' :: 'i' :: 'd' :: ':' :: ' ' :: new_id) :: r.1, r.2 + 1)
        else (line :: r.1, r.2)
      | none => (line :: r.1, r.2)
    | none => (line :: r.1, r.2)

/-- Per-file effect of update_card_files (lines 100 and 134 to 135): the
file is written back only when at least one identifier changed.  Returns
the resulting content, the change count and whether the file was written. -/
def update_card_file (m : List ((Str × Str) × Str)) (lines : List Str) :
    List Str × Nat × Bool :=
  let r := update_card_lines m lines
  if r.2 > 0 then (r.1, r.2, true) else (lines, r.2, false)

/-- update_card_files over the whole collection of card files, returning
the resulting contents and the total change count (files with zero changes
contribute zero). -/
def update_card_files (m : List ((Str × Str) × Str)) (files : List (List Str)) :
    List (List Str) × Nat :=
  (files.map (fun f => (update_card_file m f).1),
   (files.map (fun f => (update_card_lines m f).2)).sum)

/-- The lesson-file rewriting loop of lines 171 to 199: the state is the
inside-membership-list flag and the single positional index into the pair
list; every matched identifier line advances the index by exactly one. -/
def update_lesson_lines (pairs : List (Str × Str)) :
    Bool → Nat → List Str → List Str × Nat
  | _, _, [] => ([], 0)
  | in_ids, idx, line :: rest =>
    if isIdsHeader line then
      let r := update_lesson_lines pairs true idx rest
      (line :: r.1, r.2)
    else if in_ids then
      match matchLessonId line with
      | some (indent, old_id) =>
        if idx < pairs.length then
          let new_id := (pairs.getD idx ([], [])).2
          if old_id ≠ new_id then
            let r := update_lesson_lines pairs in_ids (idx + 1) rest
            ((indent ++ new_id) :: r.1, r.2 + 1)
          else
            let r := update_lesson_lines pairs in_ids (idx + 1) rest
            (line :: r.1, r.2)
        else
          let r := update_lesson_lines pairs in_ids (idx + 1) rest
          (line :: r.1, r.2)
      | none =>
        if isExitLine line then
          let r := update_lesson_lines pairs false idx rest
          (line :: r.1, r.2)
        else
          let r := update_lesson_lines pairs in_ids idx rest
          (line :: r.1, r.2)
    else
      let r := update_lesson_lines pairs in_ids idx rest
      (line :: r.1, r.2)

/-- Per-file effect of update_lesson_files (lines 163 and 201 to 202). -/
def update_lesson_file (pairs : List (Str × Str)) (lines : List Str) :
    List Str × Nat × Bool :=
  let r := update_lesson_lines pairs false 0 lines
  if r.2 > 0 then (r.1, r.2, true) else (lines, r.2, false)

def lessons_for_aux (n : Nat) (i : Nat) : List (Str × Str) → List (Str × Str)
  | [] => []
  | p :: ps =>
    if lessonOf i = n then p :: lessons_for_aux n (i + 1) ps
    else lessons_for_aux n (i + 1) ps

/-- The per-lesson grouping dict of lines 145 to 148: the ordered pairs
whose global index falls in lesson n. -/
def lessons_for (pm : List (Str × Str)) (n : Nat) : List (Str × Str) :=
  lessons_for_aux n 0 pm

/-- One lesson file, tagged with the lesson number extracted from its
filename (none when the filename regex on line 155 does not match, in which
case the file is skipped). -/
abbrev LessonFile := Option Nat × List Str

/-- Effect of update_lesson_files on one file: skipped when the filename
has no number or when its lesson is not a key of the grouping dict. -/
def update_one_lesson_file (pm : List (Str × Str)) (f : LessonFile) :
    LessonFile × Nat :=
  match f.1 with
  | none => (f, 0)
  | some n =>
    let pairs := lessons_for pm n
    if pairs.isEmpty then (f, 0)
    else
      let r := update_lesson_file pairs f.2
      ((f.1, r.1), r.2.1)

/-- update_lesson_files over the whole collection of lesson files. -/
def update_lesson_files (pm : List (Str × Str)) (files : List LessonFile) :
    List LessonFile × Nat :=
  (files.map (fun f => (update_one_lesson_file pm f).1),
   (files.map (fun f => (update_one_lesson_file pm f).2)).sum)

/-- Fatal loader errors: missing input file, and a malformed corpus
(absent required column, or a rank cell that does not parse as an
integer).  In the script these surface as uncaught FileNotFoundError,
KeyError and ValueError; the spec names them SourceNotFoundError and
SourceFormatError. -/
inductive LoadErr where
  | sourceNotFound
  | sourceFormat
  deriving DecidableEq

/-- One TSV data row as the DictReader yields it: an association from
column name to cell value. -/
abbrev CsvRow := List (Str × Str)

def colVal (r : CsvRow) (k : Str) : Option Str :=
  (r.find? (fun e => decide (e.1 = k))).map Prod.snd

/-- Python int() on a cell, restricted to the plain digit strings that
occur in the rank column; any other shape aborts the load. -/
def parseNat (s : Str) : Option Nat :=
  if s ≠ [] ∧ s.all Char.isDigit then some (decVal s) else none

/-- The loading loop of lines 37 to 43: enumerate all data rows from 1,
keep rows whose wType cell is the foreign-word marker, and record rank,
row number and lemma.  The row counter advances on every row, filtered or
not.  The wType cell is read on every row; rank and lemma only on kept
rows, as in the script. -/
def load_rows_aux (rowNum : Nat) : List CsvRow → Except LoadErr (List Row)
  | [] => .ok []
  | r :: rs =>
    match colVal r (("wType").data) with
    | none => .error .sourceFormat
    | some wt =>
      if wt = ("外").data then
        match colVal r (("rank").data), colVal r (("lemma").data) with
        | some rk, some lm =>
          match parseNat rk with
          | some rkn =>
            match load_rows_aux (rowNum + 1) rs with
            | .ok t => .ok (⟨rkn, rowNum, lm⟩ :: t)
            | .error e => .error e
          | none => .error .sourceFormat
        | _, _ => .error .sourceFormat
      else load_rows_aux (rowNum + 1) rs

/-- Stable insertion used to model the stable Python list sort by rank on
line 46: a new element goes after every element whose rank is at most its
own. -/
def insertRank (w : Row) : List Row → List Row
  | [] => [w]
  | x :: xs => if x.rank ≤ w.rank then x :: insertRank w xs else w :: x :: xs

/-- Stable sort by rank (paragraph starting at line 45). -/
def sortByRank (l : List Row) : List Row :=
  l.foldl (fun acc w => insertRank w acc) []

/-- build_id_mapping of lines 28 to 69, restricted to its second result:
load the rows (none as input models a missing file), sort by rank, truncate
to forty lessons worth of words.  The heterogeneously keyed first result of
the Python function is discarded by main and not modelled. -/
def build_id_mapping (input : Option (List CsvRow)) : Except LoadErr (List Row) :=
  match input with
  | none => .error .sourceNotFound
  | some csv =>
    match load_rows_aux 1 csv with
    | .error e => .error e
    | .ok rows => .ok ((sortByRank rows).take (WORDS_PER_LESSON * 40))

/-- The driver of lines 209 to 240: load, build both maps, update card
files, then lesson files.  Returns the final states of both file
collections and the fatal error, if any; a fatal load error leaves every
file untouched because the updates are never reached. -/
def main_run (input : Option (List CsvRow)) (cards : List (List Str))
    (lessonFiles : List LessonFile) :
    (List (List Str) × List LessonFile) × Option LoadErr :=
  match build_id_mapping input with
  | .error e => ((cards, lessonFiles), some e)
  | .ok rows =>
    ((( update_card_files (build_lemma_mapping rows) cards).1,
      (update_lesson_files (build_positional_mapping rows) lessonFiles).1), none)

theorem ucl_cons_none {m : List ((Str × Str) × Str)} {line : Str} {rest : List Str}
    (h : matchCardId line = none) :
    update_card_lines m (line :: rest) =
      (line :: (update_card_lines m rest).1, (update_card_lines m rest).2) := by
  simp [update_card_lines, h]

theorem ucl_cons_nokey {m : List ((Str × Str) × Str)} {line : Str} {rest : List Str}
    {old : Str} (h : matchCardId line = some old)
    (hk : (findLemma line rest).bind (fun lm => dlookup m (old, lm)) = none) :
    update_card_lines m (line :: rest) =
      (line :: (update_card_lines m rest).1, (update_card_lines m rest).2) := by
  simp [update_card_lines, h, hk]

theorem ucl_cons_change {m : List ((Str × Str) × Str)} {line : Str} {rest : List Str}
    {old new : Str} (h : matchCardId line = some old)
    (hk : (findLemma line rest).bind (fun lm => dlookup m (old, lm)) = some new)
    (hne : old ≠ new) :
    update_card_lines m (line :: rest) =
      (('-' :: ' ' :: 'i' :: 'd' :: ':' :: ' ' :: new) :: (update_card_lines m rest).1,
       (update_card_lines m rest).2 + 1) := by
  simp [update_card_lines, h, hk, hne]

theorem ucl_cons_nochange {m : List ((Str × Str) × Str)} {line : Str} {rest : List Str}
    {old : Str} (h : matchCardId line = some old)
    (hk : (findLemma line rest).bind (fun lm => dlookup m (old, lm)) = some old) :
    update_card_lines m (line :: rest) =
      (line :: (update_card_lines m rest).1, (update_card_lines m rest).2) := by
  simp [update_card_lines, h, hk]

theorem ull_header {pairs : List (Str × Str)} {b : Bool} {idx : Nat} {line : Str}
    {rest : List Str} (h : isIdsHeader line = true) :
    update_lesson_lines pairs b idx (line :: rest) =
      (line :: (update_lesson_lines pairs true idx rest).1,
       (update_lesson_lines pairs true idx rest).2) := by
  simp [update_lesson_lines, h]

theorem ull_outside {pairs : List (Str × Str)} {idx : Nat} {line : Str}
    {rest : List Str} (h : isIdsHeader line = false) :
    update_lesson_lines pairs false idx (line :: rest) =
      (line :: (update_lesson_lines pairs false idx rest).1,
       (update_lesson_lines pairs false idx rest).2) := by
  simp [update_lesson_lines, h]

theorem ull_id_change {pairs : List (Str × Str)} {idx : Nat} {line ind old : Str}
    {rest : List Str} (h : isIdsHeader line = false)
    (hm : matchLessonId line = some (ind, old)) (hidx : idx < pairs.length)
    (hne : old ≠ (pairs.getD idx ([], [])).2) :
    update_lesson_lines pairs true idx (line :: rest) =
      ((ind ++ (pairs.getD idx ([], [])).2) ::
         (update_lesson_lines pairs true (idx + 1) rest).1,
       (update_lesson_lines pairs true (idx + 1) rest).2 + 1) := by
  rw [List.getD_eq_getElem pairs ([], []) hidx] at hne
  simp [update_lesson_lines, h, hm, hidx, hne]

theorem ull_id_nochange {pairs : List (Str × Str)} {idx : Nat} {line ind old : Str}
    {rest : List Str} (h : isIdsHeader line = false)
    (hm : matchLessonId line = some (ind, old)) (hidx : idx < pairs.length)
    (heq : old = (pairs.getD idx ([], [])).2) :
    update_lesson_lines pairs true idx (line :: rest) =
      (line :: (update_lesson_lines pairs true (idx + 1) rest).1,
       (update_lesson_lines pairs true (idx + 1) rest).2) := by
  rw [List.getD_eq_getElem pairs ([], []) hidx] at heq
  simp [update_lesson_lines, h, hm, hidx, heq]

theorem ull_id_exhausted {pairs : List (Str × Str)} {idx : Nat} {line ind old : Str}
    {rest : List Str} (h : isIdsHeader line = false)
    (hm : matchLessonId line = some (ind, old)) (hidx : ¬ idx < pairs.length) :
    update_lesson_lines pairs true idx (line :: rest) =
      (line :: (update_lesson_lines pairs true (idx + 1) rest).1,
       (update_lesson_lines pairs true (idx + 1) rest).2) := by
  simp [update_lesson_lines, h, hm, hidx]

theorem ull_exit {pairs : List (Str × Str)} {idx : Nat} {line : Str}
    {rest : List Str} (h : isIdsHeader line = false)
    (hm : matchLessonId line = none) (he : isExitLine line = true) :
    update_lesson_lines pairs true idx (line :: rest) =
      (line :: (update_lesson_lines pairs false idx rest).1,
       (update_lesson_lines pairs false idx rest).2) := by
  simp [update_lesson_lines, h, hm, he]

theorem ull_inert {pairs : List (Str × Str)} {idx : Nat} {line : Str}
    {rest : List Str} (h : isIdsHeader line = false)
    (hm : matchLessonId line = none) (he : isExitLine line = false) :
    update_lesson_lines pairs true idx (line :: rest) =
      (line :: (update_lesson_lines pairs true idx rest).1,
       (update_lesson_lines pairs true idx rest).2) := by
  simp [update_lesson_lines, h, hm, he]

theorem ucl_length (m : List ((Str × Str) × Str)) (lines : List Str) :
    (update_card_lines m lines).1.length = lines.length := by
  induction lines with
  | nil => rfl
  | cons line rest ih =>
    cases h : matchCardId line with
    | none => rw [ucl_cons_none h]; simp [ih]
    | some old =>
      cases hk : (findLemma line rest).bind (fun lm => dlookup m (old, lm)) with
      | none => rw [ucl_cons_nokey h hk]; simp [ih]
      | some new =>
        by_cases hne : old = new
        · subst hne
          rw [ucl_cons_nochange h hk]; simp [ih]
        · rw [ucl_cons_change h hk hne]; simp [ih]

theorem ull_length (pairs : List (Str × Str)) :
    ∀ (lines : List Str) (b : Bool) (idx : Nat),
      (update_lesson_lines pairs b idx lines).1.length = lines.length := by
  intro lines
  induction lines with
  | nil => intro b idx; rfl
  | cons line rest ih =>
    intro b idx
    by_cases hh : isIdsHeader line = true
    · rw [ull_header hh]; simp [ih]
    · rw [Bool.not_eq_true] at hh
      cases b with
      | false => rw [ull_outside hh]; simp [ih]
      | true =>
        cases hm : matchLessonId line with
        | some p =>
          obtain ⟨ind, old⟩ := p
          by_cases hidx : idx < pairs.length
          · by_cases hne : old = (pairs.getD idx ([], [])).2
            · rw [ull_id_nochange hh hm hidx hne]; simp [ih]
            · rw [ull_id_change hh hm hidx hne]; simp [ih]
          · rw [ull_id_exhausted hh hm hidx]; simp [ih]
        | none =>
          cases he : isExitLine line with
          | true => rw [ull_exit hh hm he]; simp [ih]
          | false => rw [ull_inert hh hm he]; simp [ih]

/-- C9: a fatal load error (missing input file or malformed corpus) makes
the run stop before update_card_files and update_lesson_files are reached,
so both file collections come out exactly as they went in. -/
theorem main_aborts_before_mutation (input : Option (List CsvRow))
    (cards : List (List Str)) (lessonFiles : List LessonFile) (e : LoadErr)
    (h : build_id_mapping input = .error e) :
    main_run input cards lessonFiles = ((cards, lessonFiles), some e) := by
  simp [main_run, h]

def cardsW : List (List Str) := [[(("- id: ckw-l01-1").data)]]

def lessonsW : List LessonFile := [(some 1, [(("ids:").data)])]

theorem main_aborts_before_mutation_witness :
    build_id_mapping none = .error .sourceNotFound ∧
    main_run none cardsW lessonsW = ((cardsW, lessonsW), some .sourceNotFound) ∧
    build_id_mapping (some [[]]) = .error .sourceFormat ∧
    main_run (some [[]]) cardsW [] = ((cardsW, []), some .sourceFormat) :=
  ⟨rfl, main_aborts_before_mutation none cardsW lessonsW .sourceNotFound rfl,
   rfl, main_aborts_before_mutation (some [[]]) cardsW [] .sourceFormat rfl⟩

/-- The filter test of line 38: the wType cell is the foreign-word marker. -/
def keepsRow (r : CsvRow) : Bool := colVal r (("wType").data) == some (("外").data)

/-- Modelled from the claim wording for C4: 1-based ordinals among the rows
that pass the filter only, so that rejected rows do not advance the
counter.  This is what the claim asserts row_num equals. -/
def filtered_ordinals_aux (k : Nat) : List CsvRow → List Nat
  | [] => []
  | r :: rs =>
    if keepsRow r then k :: filtered_ordinals_aux (k + 1) rs
    else filtered_ordinals_aux k rs

/-- The 1-based physical positions of the kept rows in the raw file,
counting every row, rejected or not. -/
def kept_positions_aux (k : Nat) : List CsvRow → List Nat
  | [] => []
  | r :: rs =>
    if keepsRow r then k :: kept_positions_aux (k + 1) rs
    else kept_positions_aux (k + 1) rs

def loaded_row_nums (csv : List CsvRow) : List Nat :=
  match load_rows_aux 1 csv with
  | .ok rows => rows.map Row.row_num
  | .error _ => []

def csvC4 : List CsvRow :=
  [ [((("wType").data), (("内").data)), ((("rank").data), (("7").data)),
     ((("lemma").data), (("Z").data))],
    [((("wType").data), (("外").data)), ((("rank").data), (("1").data)),
     ((("lemma").data), (("X").data))] ]

/-- C4 counterexample: on a source whose first row is rejected by the
filter, the loader assigns row_num 2 to the single kept row, while the
claimed filtered ordinal is 1: rejected rows do advance the counter. -/
theorem loader_counts_all_rows_counterexample :
    loaded_row_nums csvC4 = [2] ∧ filtered_ordinals_aux 1 csvC4 = [1] ∧
    loaded_row_nums csvC4 ≠ filtered_ordinals_aux 1 csvC4 := by decide

/-- C4 amended: row_num is the 1-based position of the kept row among all
data rows of the source, counting rejected rows as well. -/
theorem loader_row_positions (csv : List CsvRow) : ∀ (k : Nat) (rows : List Row),
    load_rows_aux k csv = .ok rows →
    rows.map Row.row_num = kept_positions_aux k csv := by
  induction csv with
  | nil =>
    intro k rows h
    cases h
    rfl
  | cons r rs ih =>
    intro k rows h
    unfold load_rows_aux at h
    split at h
    · cases h
    · rename_i wt hw
      split at h
      · rename_i hwt
        have hkeep : keepsRow r = true := by
          simp [keepsRow, hw, hwt]
        split at h
        · rename_i rk lm hrk hlm
          split at h
          · rename_i rkn hp
            split at h
            · rename_i t hrec
              cases h
              unfold kept_positions_aux
              rw [if_pos hkeep]
              simp only [List.map_cons]
              rw [ih (k + 1) t hrec]
            · cases h
          · cases h
        · cases h
      · rename_i hwt
        have hkeep : ¬ keepsRow r = true := by
          simp [keepsRow, hw]
          intro hc
          exact absurd hc hwt
        unfold kept_positions_aux
        rw [if_neg hkeep]
        exact ih (k + 1) rows h

theorem loader_row_positions_witness :
    load_rows_aux 1 csvC4 = .ok [⟨1, 2, ("X").data⟩] ∧
    ([(⟨1, 2, ("X").data⟩ : Row)]).map Row.row_num = kept_positions_aux 1 csvC4 :=
  ⟨by rfl, loader_row_positions csvC4 1 [⟨1, 2, ("X").data⟩] (by rfl)⟩

theorem ull_exhausted_noop (pairs : List (Str × Str)) :
    ∀ (lines : List Str) (b : Bool) (idx : Nat), pairs.length ≤ idx →
      update_lesson_lines pairs b idx lines = (lines, 0) := by
  intro lines
  induction lines with
  | nil => intro b idx hle; rfl
  | cons line rest ih =>
    intro b idx hle
    by_cases hh : isIdsHeader line = true
    · rw [ull_header hh, ih true idx hle]
    · rw [Bool.not_eq_true] at hh
      cases b with
      | false => rw [ull_outside hh, ih false idx hle]
      | true =>
        cases hm : matchLessonId line with
        | some p =>
          obtain ⟨ind, old⟩ := p
          have hidx : ¬ idx < pairs.length := by omega
          rw [ull_id_exhausted hh hm hidx, ih true (idx + 1) (by omega)]
        | none =>
          cases he : isExitLine line with
          | true => rw [ull_exit hh hm he, ih false idx hle]
          | false => rw [ull_inert hh hm he, ih true idx hle]

theorem ull_changes_bound (pairs : List (Str × Str)) :
    ∀ (lines : List Str) (b : Bool) (idx : Nat),
      (update_lesson_lines pairs b idx lines).2 ≤ pairs.length - idx := by
  intro lines
  induction lines with
  | nil => intro b idx; exact Nat.zero_le _
  | cons line rest ih =>
    intro b idx
    by_cases hh : isIdsHeader line = true
    · rw [ull_header hh]; exact ih true idx
    · rw [Bool.not_eq_true] at hh
      cases b with
      | false => rw [ull_outside hh]; exact ih false idx
      | true =>
        cases hm : matchLessonId line with
        | some p =>
          obtain ⟨ind, old⟩ := p
          by_cases hidx : idx < pairs.length
          · by_cases hne : old = (pairs.getD idx ([], [])).2
            · rw [ull_id_nochange hh hm hidx hne]
              have := ih true (idx + 1)
              omega
            · rw [ull_id_change hh hm hidx hne]
              have := ih true (idx + 1)
              simp only []
              omega
          · rw [ull_id_exhausted hh hm hidx]
            have := ih true (idx + 1)
            omega
        | none =>
          cases he : isExitLine line with
          | true => rw [ull_exit hh hm he]; exact ih false idx
          | false => rw [ull_inert hh hm he]; exact ih true idx

/-- C7: a lesson file with more physical identifier occurrences than
remaining positional pairs triggers no error: once the positional index
passes the end of the pair list the whole remaining file is reproduced
unchanged with zero further changes, and the only observable signal is the
change count, which can never exceed the number of pairs. -/
theorem positional_exhaustion_is_silent :
    ∀ (pairs : List (Str × Str)) (b : Bool) (idx : Nat) (lines : List Str),
      (pairs.length ≤ idx → update_lesson_lines pairs b idx lines = (lines, 0)) ∧
      (update_lesson_file pairs lines).2.1 ≤ pairs.length := by
  intro pairs b idx lines
  constructor
  · exact fun h => ull_exhausted_noop pairs lines b idx h
  · have hb := ull_changes_bound pairs lines false 0
    unfold update_lesson_file
    by_cases hc : (update_lesson_lines pairs false 0 lines).2 > 0
    · simp only [if_pos hc]
      omega
    · simp only [if_neg hc]
      omega

theorem positional_exhaustion_is_silent_witness :
    update_lesson_lines [((("ckw-l01-5").data), (("ckw-l01-1").data))] true 5
        [(("  - ckw-l01-7").data)] = ([(("  - ckw-l01-7").data)], 0) ∧
    (update_lesson_file [((("ckw-l01-5").data), (("ckw-l01-1").data))]
        [(("  - ckw-l01-7").data)]).2.1 ≤ 1 := by
  have h := positional_exhaustion_is_silent
    [((("ckw-l01-5").data), (("ckw-l01-1").data))] true 5 [(("  - ckw-l01-7").data)]
  exact ⟨h.1 (by decide), h.2⟩

theorem ucl_cons_tail (m : List ((Str × Str) × Str)) (line : Str) (rest : List Str) :
    ∃ e, (update_card_lines m (line :: rest)).1 = e :: (update_card_lines m rest).1 := by
  cases h : matchCardId line with
  | none => exact ⟨line, by rw [ucl_cons_none h]⟩
  | some old =>
    cases hk : (findLemma line rest).bind (fun lm => dlookup m (old, lm)) with
    | none => exact ⟨line, by rw [ucl_cons_nokey h hk]⟩
    | some new =>
      by_cases hne : old = new
      · subst hne
        exact ⟨line, by rw [ucl_cons_nochange h hk]⟩
      · exact ⟨'-' :: ' ' :: 'i' :: 'd' :: ':' :: ' ' :: new, by rw [ucl_cons_change h hk hne]⟩

theorem ull_cons_tail (pairs : List (Str × Str)) (b : Bool) (idx : Nat) (line : Str)
    (rest : List Str) :
    ∃ e b2 idx2, (update_lesson_lines pairs b idx (line :: rest)).1 =
      e :: (update_lesson_lines pairs b2 idx2 rest).1 := by
  by_cases hh : isIdsHeader line = true
  · exact ⟨line, true, idx, by rw [ull_header hh]⟩
  · rw [Bool.not_eq_true] at hh
    cases b with
    | false => exact ⟨line, false, idx, by rw [ull_outside hh]⟩
    | true =>
      cases hm : matchLessonId line with
      | some p =>
        obtain ⟨ind, old⟩ := p
        by_cases hidx : idx < pairs.length
        · by_cases hne : old = (pairs.getD idx ([], [])).2
          · exact ⟨line, true, idx + 1, by rw [ull_id_nochange hh hm hidx hne]⟩
          · exact ⟨ind ++ (pairs.getD idx ([], [])).2, true, idx + 1,
              by rw [ull_id_change hh hm hidx hne]⟩
        · exact ⟨line, true, idx + 1, by rw [ull_id_exhausted hh hm hidx]⟩
      | none =>
        cases he : isExitLine line with
        | true => exact ⟨line, false, idx, by rw [ull_exit hh hm he]⟩
        | false => exact ⟨line, true, idx, by rw [ull_inert hh hm he]⟩

theorem ucl_frame (m : List ((Str × Str) × Str)) (lines : List Str) :
    ∀ i, matchCardId (lines.getD i []) = none →
      (update_card_lines m lines).1.getD i [] = lines.getD i [] := by
  induction lines with
  | nil => intro i h; rfl
  | cons line rest ih =>
    intro i h
    cases i with
    | zero =>
      rw [List.getD_cons_zero] at h ⊢
      rw [ucl_cons_none h, List.getD_cons_zero]
    | succ i =>
      rw [List.getD_cons_succ] at h ⊢
      obtain ⟨e, he⟩ := ucl_cons_tail m line rest
      rw [he, List.getD_cons_succ]
      exact ih i h

theorem ull_frame (pairs : List (Str × Str)) :
    ∀ (lines : List Str) (b : Bool) (idx : Nat) (i : Nat),
      matchLessonId (lines.getD i []) = none →
      (update_lesson_lines pairs b idx lines).1.getD i [] = lines.getD i [] := by
  intro lines
  induction lines with
  | nil => intro b idx i h; rfl
  | cons line rest ih =>
    intro b idx i h
    cases i with
    | zero =>
      rw [List.getD_cons_zero] at h ⊢
      by_cases hh : isIdsHeader line = true
      · rw [ull_header hh, List.getD_cons_zero]
      · rw [Bool.not_eq_true] at hh
        cases b with
        | false => rw [ull_outside hh, List.getD_cons_zero]
        | true =>
          cases he : isExitLine line with
          | true => rw [ull_exit hh h he, List.getD_cons_zero]
          | false => rw [ull_inert hh h he, List.getD_cons_zero]
    | succ i =>
      rw [List.getD_cons_succ] at h ⊢
      obtain ⟨e, b2, idx2, he⟩ := ull_cons_tail pairs b idx line rest
      rw [he, List.getD_cons_succ]
      exact ih b2 idx2 i h

/-- C8: every line the fixed textual patterns do not recognize as an
identifier line is reproduced unchanged at its position, in card files and
in lesson files alike, and a file in which zero identifiers changed is not
written back (the written flag stays false and the content is the original
lines). -/
theorem rewriter_frame_property :
    ∀ (m : List ((Str × Str) × Str)) (pairs : List (Str × Str)) (b : Bool)
      (idx : Nat) (lines : List Str) (i : Nat),
      (matchCardId (lines.getD i []) = none →
        (update_card_lines m lines).1.getD i [] = lines.getD i []) ∧
      (matchLessonId (lines.getD i []) = none →
        (update_lesson_lines pairs b idx lines).1.getD i [] = lines.getD i []) ∧
      ((update_card_lines m lines).2 = 0 →
        update_card_file m lines = (lines, 0, false)) ∧
      ((update_lesson_lines pairs false 0 lines).2 = 0 →
        update_lesson_file pairs lines = (lines, 0, false)) := by
  intro m pairs b idx lines i
  refine ⟨ucl_frame m lines i, ull_frame pairs lines b idx i, fun hc => ?_, fun hl => ?_⟩
  · unfold update_card_file
    simp only []
    rw [hc]
    simp
  · unfold update_lesson_file
    simp only []
    rw [hl]
    simp

def mW : List ((Str × Str) × Str) := build_lemma_mapping [⟨1, 1, ("X").data⟩]

def pairsW : List (Str × Str) := [((("ckw-l01-5").data), (("ckw-l01-1").data))]

def linesW : List Str := [(("# comment").data), (("front: a").data)]

theorem rewriter_frame_property_witness :
    (update_card_lines mW linesW).1.getD 0 [] = linesW.getD 0 [] ∧
    (update_lesson_lines pairsW false 0 linesW).1.getD 0 [] = linesW.getD 0 [] ∧
    update_card_file mW linesW = (linesW, 0, false) ∧
    update_lesson_file pairsW linesW = (linesW, 0, false) := by
  have h := rewriter_frame_property mW pairsW false 0 linesW 0
  exact ⟨h.1 (by decide), h.2.1 (by decide), h.2.2.1 (by decide), h.2.2.2 (by decide)⟩

/-- C6: an identifier declaration line whose (old identifier, first answer)
key is absent from the content map is reproduced unchanged at its position;
no error is possible, the record is simply outside the migration's source
set. -/
theorem unmapped_card_entry_untouched :
    ∀ (m : List ((Str × Str) × Str)) (lines : List Str) (i : Nat) (old : Str),
      matchCardId (lines.getD i []) = some old →
      (findLemma (lines.getD i []) (lines.drop (i + 1))).bind
        (fun lm => dlookup m (old, lm)) = none →
      (update_card_lines m lines).1.getD i [] = lines.getD i [] := by
  intro m lines
  induction lines with
  | nil => intro i old h hk; rfl
  | cons line rest ih =>
    intro i old h hk
    cases i with
    | zero =>
      rw [List.getD_cons_zero] at h ⊢
      rw [List.drop_succ_cons, List.drop_zero] at hk
      rw [ucl_cons_nokey h hk, List.getD_cons_zero]
    | succ i =>
      rw [List.getD_cons_succ] at h ⊢
      rw [List.drop_succ_cons] at hk
      obtain ⟨e, he⟩ := ucl_cons_tail m line rest
      rw [he, List.getD_cons_succ]
      exact ih i old h hk

theorem unmapped_card_entry_untouched_witness :
    (update_card_lines mW [(("- id: ckw-l02-9").data)]).1.getD 0 [] =
      ([(("- id: ckw-l02-9").data)] : List Str).getD 0 [] :=
  unmapped_card_entry_untouched mW [(("- id: ckw-l02-9").data)] 0
    (("ckw-l02-9").data) (by decide) (by decide)

theorem mapSnd_getD {p1 p2 : List (Str × Str)} (h : p1.map Prod.snd = p2.map Prod.snd) :
    ∀ i, (p1.getD i ([], [])).2 = (p2.getD i ([], [])).2 := by
  induction p1 generalizing p2 with
  | nil =>
    intro i
    cases p2 with
    | nil => rfl
    | cons b bs => cases h
  | cons a as ih =>
    intro i
    cases p2 with
    | nil => cases h
    | cons b bs =>
      simp only [List.map_cons, List.cons.injEq] at h
      cases i with
      | zero => simpa using h.1
      | succ i =>
        simp only [List.getD_cons_succ]
        exact ih h.2 i

theorem ull_olds_invariant {p1 p2 : List (Str × Str)}
    (h : p1.map Prod.snd = p2.map Prod.snd) :
    ∀ (lines : List Str) (b : Bool) (idx : Nat),
      update_lesson_lines p1 b idx lines = update_lesson_lines p2 b idx lines := by
  have hlen : p1.length = p2.length := by
    have := congrArg List.length h
    simpa using this
  intro lines
  induction lines with
  | nil => intro b idx; rfl
  | cons line rest ih =>
    intro b idx
    by_cases hh : isIdsHeader line = true
    · rw [ull_header hh, ull_header hh, ih true idx]
    · rw [Bool.not_eq_true] at hh
      cases b with
      | false => rw [ull_outside hh, ull_outside hh, ih false idx]
      | true =>
        cases hm : matchLessonId line with
        | some p =>
          obtain ⟨ind, old⟩ := p
          have hget := mapSnd_getD h idx
          by_cases hidx : idx < p1.length
          · have hidx2 : idx < p2.length := by omega
            by_cases hne : old = (p1.getD idx ([], [])).2
            · rw [ull_id_nochange hh hm hidx hne,
                  ull_id_nochange hh hm hidx2 (by rw [← hget]; exact hne), ih true (idx + 1)]
            · rw [ull_id_change hh hm hidx hne,
                  ull_id_change hh hm hidx2 (by rw [← hget]; exact hne), ih true (idx + 1), hget]
          · have hidx2 : ¬ idx < p2.length := by omega
            rw [ull_id_exhausted hh hm hidx, ull_id_exhausted hh hm hidx2, ih true (idx + 1)]
        | none =>
          cases he : isExitLine line with
          | true => rw [ull_exit hh hm he, ull_exit hh hm he, ih false idx]
          | false => rw [ull_inert hh hm he, ull_inert hh hm he, ih true idx]

theorem map_snd_getD (pairs : List (Str × Str)) (idx : Nat) (h : idx < pairs.length) :
    (pairs.map Prod.snd).getD idx [] = (pairs.getD idx ([], [])).2 := by
  rw [List.getD_eq_getElem _ _ (by simpa using h), List.getD_eq_getElem _ _ h]
  simp

theorem ull_overwrites_positionally (pairs : List (Str × Str)) :
    ∀ (wss olds : List Str) (idx : Nat),
      wss.length = olds.length →
      (∀ ws ∈ wss, ws ≠ [] ∧ ∀ c ∈ ws, pyIsSpace c = true) →
      (∀ o ∈ olds, idShape o = true) →
      idx + olds.length ≤ pairs.length →
      (update_lesson_lines pairs true idx
         (List.zipWith (fun ws o => ws ++ '-' :: ' ' :: o) wss olds)).1 =
      List.zipWith (fun ws o => ws ++ '-' :: ' ' :: o) wss
        (((pairs.map Prod.snd).drop idx).take olds.length) := by
  intro wss
  induction wss with
  | nil =>
    intro olds idx hlen hws holds hle
    rfl
  | cons ws wss ih =>
    intro olds idx hlen hws holds hle
    cases olds with
    | nil => cases hlen
    | cons o olds =>
      simp only [List.zipWith_cons_cons]
      have hwsh := hws ws (List.mem_cons_self ws wss)
      have hoh := holds o (List.mem_cons_self o olds)
      have hdrop : (ws ++ '-' :: ' ' :: o).dropWhile pyIsSpace = '-' :: ' ' :: o :=
        dropWhile_append_all (' ' :: o) hwsh.2 (by decide)
      have hh : isIdsHeader (ws ++ '-' :: ' ' :: o) = false := isIdsHeader_of_dash hdrop
      have hm : matchLessonId (ws ++ '-' :: ' ' :: o) = some (ws ++ ['-', ' '], o) :=
        matchLessonId_mk hwsh.1 hwsh.2 hoh
      have hidx : idx < pairs.length := by
        simp only [List.length_cons] at hle
        omega
      have hidxm : idx < (pairs.map Prod.snd).length := by simpa using hidx
      have htk : ((pairs.map Prod.snd).drop idx).take (olds.length + 1) =
          (pairs.getD idx ([], [])).2 ::
            ((pairs.map Prod.snd).drop (idx + 1)).take olds.length := by
        rw [List.drop_eq_getElem_cons hidxm, List.take_succ_cons]
        rw [← List.getD_eq_getElem _ ([] : Str) hidxm, map_snd_getD pairs idx hidx]
      have hrec := ih olds (idx + 1) (by simpa using hlen)
        (fun w hw => hws w (List.mem_cons_of_mem ws hw))
        (fun x hx => holds x (List.mem_cons_of_mem o hx))
        (by simp only [List.length_cons] at hle; omega)
      simp only [List.length_cons, htk, List.zipWith_cons_cons]
      by_cases hne : o = (pairs.getD idx ([], [])).2
      · rw [ull_id_nochange hh hm hidx hne, hrec, ← hne]
      · rw [ull_id_change hh hm hidx hne, hrec]
        simp

/-- C10: the lesson rewriter consults a pair only through its new
identifier (first conjunct: the result is invariant under changing the old
components of the pairs), and a membership list made of identifier-shaped
lines is overwritten wholesale with the logical-sequence new identifiers,
the i-th line from the i-th pair, regardless of which old identifiers
currently sit on the lines (second conjunct). -/
theorem lesson_rewrite_ignores_pair_olds :
    (∀ (p1 p2 : List (Str × Str)), p1.map Prod.snd = p2.map Prod.snd →
      ∀ (lines : List Str) (b : Bool) (idx : Nat),
        update_lesson_lines p1 b idx lines = update_lesson_lines p2 b idx lines) ∧
    (∀ (pairs : List (Str × Str)) (wss olds : List Str) (idx : Nat),
      wss.length = olds.length →
      (∀ ws ∈ wss, ws ≠ [] ∧ ∀ c ∈ ws, pyIsSpace c = true) →
      (∀ o ∈ olds, idShape o = true) →
      idx + olds.length ≤ pairs.length →
      (update_lesson_lines pairs true idx
         (List.zipWith (fun ws o => ws ++ '-' :: ' ' :: o) wss olds)).1 =
      List.zipWith (fun ws o => ws ++ '-' :: ' ' :: o) wss
        (((pairs.map Prod.snd).drop idx).take olds.length)) :=
  ⟨fun _ _ h => ull_olds_invariant h, ull_overwrites_positionally⟩

theorem lesson_rewrite_ignores_pair_olds_witness :
    update_lesson_lines [((("ckw-l01-9").data), (("ckw-l01-1").data))] true 0
        [(("  - ckw-l01-7").data)] =
      update_lesson_lines [((("ckw-l01-8").data), (("ckw-l01-1").data))] true 0
        [(("  - ckw-l01-7").data)] ∧
    (update_lesson_lines [((("ckw-l01-9").data), (("ckw-l01-1").data))] true 0
        (List.zipWith (fun ws o => ws ++ '-' :: ' ' :: o)
          [(("  ").data)] [(("ckw-l01-7").data)])).1 =
      List.zipWith (fun ws o => ws ++ '-' :: ' ' :: o) [(("  ").data)]
        ((([((("ckw-l01-9").data), (("ckw-l01-1").data))].map Prod.snd).drop 0).take 1) := by
  have h := lesson_rewrite_ignores_pair_olds
  exact ⟨h.1 _ _ (by decide) [(("  - ckw-l01-7").data)] true 0,
         h.2 [((("ckw-l01-9").data), (("ckw-l01-1").data))]
           [(("  ").data)] [(("ckw-l01-7").data)] 0
           (by decide) (by decide) (by decide) (by decide)⟩

/-- Modelled from the spec wording behind C3: an explicit per-group,
per-old-identifier cursor (a mapping from old identifier to the next index
into that identifier's own ordered pair list), advanced each time the old
identifier is matched again in the file content. -/
def update_lesson_lines_perid (pairs : List (Str × Str)) :
    Bool → (Str → Nat) → List Str → List Str
  | _, _, [] => []
  | in_ids, cur, line :: rest =>
    if isIdsHeader line then line :: update_lesson_lines_perid pairs true cur rest
    else if in_ids then
      match matchLessonId line with
      | some io =>
        let plist := (pairs.filter (fun p => p.1 == io.2)).map Prod.snd
        let k := cur io.2
        if k < plist.length then
          let cur2 := fun o => if o = io.2 then k + 1 else cur o
          (if io.2 ≠ plist.getD k [] then io.1 ++ plist.getD k [] else line) ::
            update_lesson_lines_perid pairs in_ids cur2 rest
        else line :: update_lesson_lines_perid pairs in_ids cur rest
      | none =>
        if isExitLine line then line :: update_lesson_lines_perid pairs false cur rest
        else line :: update_lesson_lines_perid pairs in_ids cur rest
    else line :: update_lesson_lines_perid pairs in_ids cur rest

def pairsC3 : List (Str × Str) :=
  [((("ckw-l01-5").data), (("ckw-l01-1").data)),
   ((("ckw-l01-7").data), (("ckw-l01-2").data))]

def linesC3 : List Str := [(("ids:").data), (("  - ckw-l01-7").data)]

/-- C3 counterexample: on a group whose pair list is
(ckw-l01-5 to ckw-l01-1) then (ckw-l01-7 to ckw-l01-2), a file whose single
physical identifier line bears ckw-l01-7 is rewritten by the script to
ckw-l01-1 (the new identifier of the first pair in the group), not to
ckw-l01-2 as the per-old-identifier cursor policy of the claim
prescribes. -/
theorem no_per_identifier_cursor_counterexample :
    (update_lesson_lines pairsC3 false 0 linesC3).1 =
      [(("ids:").data), (("  - ckw-l01-1").data)] ∧
    update_lesson_lines_perid pairsC3 false (fun _ => 0) linesC3 =
      [(("ids:").data), (("  - ckw-l01-2").data)] ∧
    (update_lesson_lines pairsC3 false 0 linesC3).1 ≠
      update_lesson_lines_perid pairsC3 false (fun _ => 0) linesC3 := by
  refine ⟨by decide, by decide, by decide⟩

/-- The ordinal-annotation pass underlying the actual policy: the state is
the single per-file index, advanced on every identifier-shaped line inside
the membership list, whatever identifier the line bears. -/
def id_ordinals : Bool → Nat → List Str → List (Option Nat)
  | _, _, [] => []
  | in_ids, idx, line :: rest =>
    if isIdsHeader line then none :: id_ordinals true idx rest
    else if in_ids then
      match matchLessonId line with
      | some _ => some idx :: id_ordinals in_ids (idx + 1) rest
      | none =>
        if isExitLine line then none :: id_ordinals false idx rest
        else none :: id_ordinals in_ids idx rest
    else none :: id_ordinals in_ids idx rest

theorem ido_header {b : Bool} {idx : Nat} {line : Str} {rest : List Str}
    (h : isIdsHeader line = true) :
    id_ordinals b idx (line :: rest) = none :: id_ordinals true idx rest := by
  simp [id_ordinals, h]

theorem ido_outside {idx : Nat} {line : Str} {rest : List Str}
    (h : isIdsHeader line = false) :
    id_ordinals false idx (line :: rest) = none :: id_ordinals false idx rest := by
  simp [id_ordinals, h]

theorem ido_id {idx : Nat} {line : Str} {rest : List Str} {p : Str × Str}
    (h : isIdsHeader line = false) (hm : matchLessonId line = some p) :
    id_ordinals true idx (line :: rest) = some idx :: id_ordinals true (idx + 1) rest := by
  simp [id_ordinals, h, hm]

theorem ido_exit {idx : Nat} {line : Str} {rest : List Str}
    (h : isIdsHeader line = false) (hm : matchLessonId line = none)
    (he : isExitLine line = true) :
    id_ordinals true idx (line :: rest) = none :: id_ordinals false idx rest := by
  simp [id_ordinals, h, hm, he]

theorem ido_inert {idx : Nat} {line : Str} {rest : List Str}
    (h : isIdsHeader line = false) (hm : matchLessonId line = none)
    (he : isExitLine line = false) :
    id_ordinals true idx (line :: rest) = none :: id_ordinals true idx rest := by
  simp [id_ordinals, h, hm, he]

/-- C3 amended: the rewriter maintains one single per-file cursor over the
whole ordered pair list of the group, advanced on every physical
identifier-shaped occurrence (not a per-old-identifier cursor): the line
holding the k-th physical occurrence is rewritten from the k-th pair alone
whenever its identifier differs from that pair's new identifier. -/
theorem single_cursor_characterization (pairs : List (Str × Str)) :
    ∀ (lines : List Str) (b : Bool) (idx : Nat),
      (update_lesson_lines pairs b idx lines).1 =
      List.zipWith (fun line k? =>
        match k?, matchLessonId line with
        | some k, some io =>
          if k < pairs.length ∧ io.2 ≠ (pairs.getD k ([], [])).2
          then io.1 ++ (pairs.getD k ([], [])).2 else line
        | _, _ => line) lines (id_ordinals b idx lines) := by
  intro lines
  induction lines with
  | nil => intro b idx; rfl
  | cons line rest ih =>
    intro b idx
    by_cases hh : isIdsHeader line = true
    · rw [ull_header hh, ido_header hh, List.zipWith_cons_cons, ih true idx]
    · rw [Bool.not_eq_true] at hh
      cases b with
      | false =>
        rw [ull_outside hh, ido_outside hh, List.zipWith_cons_cons, ih false idx]
      | true =>
        cases hm : matchLessonId line with
        | some p =>
          obtain ⟨ind, old⟩ := p
          by_cases hidx : idx < pairs.length
          · by_cases hne : old = (pairs.getD idx ([], [])).2
            · rw [ull_id_nochange hh hm hidx hne, ido_id hh hm,
                  List.zipWith_cons_cons, ih true (idx + 1)]
              simp only [hm]
              rw [if_neg (fun hc => hc.2 hne)]
            · rw [ull_id_change hh hm hidx hne, ido_id hh hm,
                  List.zipWith_cons_cons, ih true (idx + 1)]
              simp only [hm]
              rw [if_pos ⟨hidx, hne⟩]
          · rw [ull_id_exhausted hh hm hidx, ido_id hh hm,
                List.zipWith_cons_cons, ih true (idx + 1)]
            simp only [hm]
            rw [if_neg (fun hc => hidx hc.1)]
        | none =>
          cases he : isExitLine line with
          | true =>
            rw [ull_exit hh hm he, ido_exit hh hm he, List.zipWith_cons_cons, ih false idx]
          | false =>
            rw [ull_inert hh hm he, ido_inert hh hm he, List.zipWith_cons_cons, ih true idx]

def d0 : Row := ⟨0, 0, []⟩

theorem dlookup_mem {α β : Type} [DecidableEq α] {m : List (α × β)} {k : α} {v : β}
    (h : dlookup m k = some v) : (k, v) ∈ m := by
  unfold dlookup at h
  cases hf : m.reverse.find? (fun e => decide (e.1 = k)) with
  | none => rw [hf] at h; cases h
  | some e =>
    rw [hf] at h
    have hp := List.find?_some hf
    have hm := List.mem_of_find?_eq_some hf
    simp only [decide_eq_true_eq] at hp
    cases h
    rw [List.mem_reverse] at hm
    have : e = (k, e.2) := by
      cases e
      simp only at hp
      rw [hp]
    rw [← this]
    exact hm

theorem dlookup_some_of_mem {α β : Type} [DecidableEq α] {m : List (α × β)} {k : α}
    {v : β} (h : (k, v) ∈ m) : ∃ u, dlookup m k = some u := by
  unfold dlookup
  cases hf : m.reverse.find? (fun e => decide (e.1 = k)) with
  | none =>
    rw [List.find?_eq_none] at hf
    exact absurd (by simp : decide ((k, v).1 = k) = true)
      (hf (k, v) (List.mem_reverse.mpr h))
  | some e => exact ⟨e.2, rfl⟩

theorem blm_mem : ∀ {rows : List Row} {s : Nat} {e : (Str × Str) × Str},
    e ∈ build_lemma_mapping_aux s rows →
    ∃ t, t < rows.length ∧
      e = ((oldIdOf (s + t) (rows.getD t d0), (rows.getD t d0).lem),
           newIdOf (s + t) (rows.getD t d0)) := by
  intro rows
  induction rows with
  | nil => intro s e h; cases h
  | cons w ws ih =>
    intro s e h
    rcases List.mem_cons.mp h with rfl | hmem
    · refine ⟨0, by simp, ?_⟩
      simp [List.getD_cons_zero]
    · obtain ⟨t, ht, he⟩ := ih hmem
      refine ⟨t + 1, by simpa using Nat.succ_lt_succ ht, ?_⟩
      rw [List.getD_cons_succ, show s + (t + 1) = s + 1 + t by omega]
      exact he

theorem blm_key_mem : ∀ {rows : List Row} {s t : Nat}, t < rows.length →
    ((oldIdOf (s + t) (rows.getD t d0), (rows.getD t d0).lem),
     newIdOf (s + t) (rows.getD t d0)) ∈ build_lemma_mapping_aux s rows := by
  intro rows
  induction rows with
  | nil => intro s t h; exact absurd h (Nat.not_lt_zero t)
  | cons w ws ih =>
    intro s t h
    cases t with
    | zero =>
      simp only [List.getD_cons_zero, Nat.add_zero]
      exact List.mem_cons_self _ _
    | succ t =>
      rw [List.getD_cons_succ, show s + (t + 1) = s + 1 + t by omega]
      exact List.mem_cons_of_mem _ (ih (by simpa using Nat.lt_of_succ_lt_succ h))

theorem nodup_getD_inj {rows : List Row} (h : (rows.map Row.row_num).Nodup)
    {t1 t2 : Nat} (h1 : t1 < rows.length) (h2 : t2 < rows.length)
    (he : (rows.getD t1 d0).row_num = (rows.getD t2 d0).row_num) : t1 = t2 := by
  have hm1 : t1 < (rows.map Row.row_num).length := by simpa using h1
  have hm2 : t2 < (rows.map Row.row_num).length := by simpa using h2
  have : (rows.map Row.row_num)[t1] = (rows.map Row.row_num)[t2] := by
    simp only [List.getElem_map]
    rw [← List.getD_eq_getElem rows d0 h1, ← List.getD_eq_getElem rows d0 h2]
    exact he
  exact (List.Nodup.getElem_inj_iff h).mp this

def rowsC5 : List Row := [⟨1, 1, ("X").data⟩, ⟨1, 2, ("Y").data⟩]

/-- C5: whenever two loaded entries share their old identifier but carry
distinct primary texts, the content map holds both (old identifier, text)
keys and sends them to distinct new identifiers; on the two-row example
with ranks 1,1, row numbers 1,2 and texts X,Y the content map is exactly
the two bindings (ckw-l01-1, X) to ckw-l01-1 and (ckw-l01-1, Y) to
ckw-l01-2 (the spec writes the prefix pfx-g for the script's ckw-l). -/
theorem content_map_distinguishes_collisions :
    (∀ (rows : List Row) (i j : Nat),
      (rows.map Row.row_num).Nodup → i < rows.length → j < rows.length →
      oldIdOf i (rows.getD i d0) = oldIdOf j (rows.getD j d0) →
      (rows.getD i d0).lem ≠ (rows.getD j d0).lem →
      ∃ vi vj,
        dlookup (build_lemma_mapping rows)
          (oldIdOf i (rows.getD i d0), (rows.getD i d0).lem) = some vi ∧
        dlookup (build_lemma_mapping rows)
          (oldIdOf j (rows.getD j d0), (rows.getD j d0).lem) = some vj ∧
        vi ≠ vj) ∧
    build_lemma_mapping rowsC5 =
      [(((("ckw-l01-1").data), (("X").data)), (("ckw-l01-1").data)),
       (((("ckw-l01-1").data), (("Y").data)), (("ckw-l01-2").data))] ∧
    dlookup (build_lemma_mapping rowsC5) ((("ckw-l01-1").data), (("X").data)) =
      some (("ckw-l01-1").data) ∧
    dlookup (build_lemma_mapping rowsC5) ((("ckw-l01-1").data), (("Y").data)) =
      some (("ckw-l01-2").data) := by
  refine ⟨?_, by decide, by decide, by decide⟩
  intro rows i j hnd hi hj hold hlem
  have hki := blm_key_mem (s := 0) hi
  have hkj := blm_key_mem (s := 0) hj
  simp only [Nat.zero_add] at hki hkj
  obtain ⟨vi, hvi⟩ := dlookup_some_of_mem (m := build_lemma_mapping rows) hki
  obtain ⟨vj, hvj⟩ := dlookup_some_of_mem (m := build_lemma_mapping rows) hkj
  refine ⟨vi, vj, hvi, hvj, ?_⟩
  intro hvij
  obtain ⟨t1, ht1, he1⟩ := blm_mem (dlookup_mem hvi)
  obtain ⟨t2, ht2, he2⟩ := blm_mem (dlookup_mem hvj)
  simp only [Nat.zero_add, Prod.mk.injEq] at he1 he2
  obtain ⟨⟨hold1, hlem1⟩, hnew1⟩ := he1
  obtain ⟨⟨hold2, hlem2⟩, hnew2⟩ := he2
  have hrow : (rows.getD t1 d0).row_num = (rows.getD t2 d0).row_num := by
    have hnew : mkId (lessonOf t1) (rows.getD t1 d0).row_num =
        mkId (lessonOf t2) (rows.getD t2 d0).row_num := by
      show newIdOf t1 (rows.getD t1 d0) = newIdOf t2 (rows.getD t2 d0)
      rw [← hnew1, ← hnew2, hvij]
    exact mkId_inj_row hnew
  have ht12 : t1 = t2 := nodup_getD_inj hnd ht1 ht2 hrow
  subst ht12
  exact hlem (hlem1.trans hlem2.symm)

theorem content_map_distinguishes_collisions_witness :
    ∃ vi vj,
      dlookup (build_lemma_mapping rowsC5)
        (oldIdOf 0 (rowsC5.getD 0 d0), (rowsC5.getD 0 d0).lem) = some vi ∧
      dlookup (build_lemma_mapping rowsC5)
        (oldIdOf 1 (rowsC5.getD 1 d0), (rowsC5.getD 1 d0).lem) = some vj ∧
      vi ≠ vj :=
  content_map_distinguishes_collisions.1 rowsC5 0 1 (by decide) (by decide)
    (by decide) (by decide) (by decide)

theorem load_rows_nodup (csv : List CsvRow) : ∀ (k : Nat) (rows : List Row),
    load_rows_aux k csv = .ok rows →
    (rows.map Row.row_num).Nodup ∧ ∀ w ∈ rows, k ≤ w.row_num := by
  induction csv with
  | nil =>
    intro k rows h
    cases h
    exact ⟨List.nodup_nil, by intro w hw; cases hw⟩
  | cons r rs ih =>
    intro k rows h
    unfold load_rows_aux at h
    split at h
    · cases h
    · split at h
      · split at h
        · split at h
          · split at h
            · rename_i t hrec
              cases h
              obtain ⟨hnd, hge⟩ := ih (k + 1) t hrec
              constructor
              · simp only [List.map_cons]
                refine List.Nodup.cons ?_ hnd
                intro hmem
                obtain ⟨w, hw, hwn⟩ := List.mem_map.mp hmem
                have := hge w hw
                omega
              · intro w hw
                rcases List.mem_cons.mp hw with rfl | hw2
                · exact Nat.le_refl k
                · exact Nat.le_of_succ_le (hge w hw2)
            · cases h
          · cases h
        · cases h
      · obtain ⟨hnd, hge⟩ := ih (k + 1) rows h
        exact ⟨hnd, fun w hw => Nat.le_of_succ_le (hge w hw)⟩

theorem insertRank_perm (w : Row) (l : List Row) : (insertRank w l).Perm (w :: l) := by
  induction l with
  | nil => exact List.Perm.refl _
  | cons x xs ih =>
    unfold insertRank
    by_cases h : x.rank ≤ w.rank
    · rw [if_pos h]
      exact (List.Perm.cons x ih).trans (List.Perm.swap w x xs)
    · rw [if_neg h]

theorem sort_fold_perm : ∀ (l acc : List Row),
    (l.foldl (fun acc w => insertRank w acc) acc).Perm (acc ++ l) := by
  intro l
  induction l with
  | nil => intro acc; simp
  | cons x xs ih =>
    intro acc
    simp only [List.foldl_cons]
    refine (ih (insertRank x acc)).trans ?_
    refine (List.Perm.append_right xs (insertRank_perm x acc)).trans ?_
    simpa using List.perm_middle.symm

theorem sortByRank_perm (l : List Row) : (sortByRank l).Perm l := by
  simpa using sort_fold_perm l []

theorem bpm_snd_mem : ∀ {rows : List Row} {s : Nat} {v : Str},
    v ∈ (build_positional_mapping_aux s rows).map Prod.snd →
    ∃ w ∈ rows, ∃ L, v = mkId L w.row_num := by
  intro rows
  induction rows with
  | nil => intro s v h; cases h
  | cons w ws ih =>
    intro s v h
    rcases List.mem_cons.mp h with rfl | hmem
    · exact ⟨w, List.mem_cons_self w ws, lessonOf s, rfl⟩
    · obtain ⟨w2, hw2, L, hL⟩ := ih hmem
      exact ⟨w2, List.mem_cons_of_mem w hw2, L, hL⟩

theorem bpm_snd_nodup : ∀ {rows : List Row} {s : Nat},
    (rows.map Row.row_num).Nodup →
    ((build_positional_mapping_aux s rows).map Prod.snd).Nodup := by
  intro rows
  induction rows with
  | nil => intro s h; exact List.nodup_nil
  | cons w ws ih =>
    intro s h
    simp only [List.map_cons] at h
    simp only [build_positional_mapping_aux, List.map_cons]
    refine List.Nodup.cons ?_ (ih h.of_cons)
    intro hmem
    obtain ⟨w2, hw2, L, hL⟩ := bpm_snd_mem hmem
    have hrow : w.row_num = w2.row_num := mkId_inj_row hL
    have : w.row_num ∈ ws.map Row.row_num :=
      List.mem_map.mpr ⟨w2, hw2, hrow.symm⟩
    exact (List.nodup_cons.mp h).1 this

/-- C2: on every successfully loaded corpus the new identifiers produced by
the reconciler are pairwise distinct across the whole corpus, because the
row numbers are pairwise distinct and the new identifier embeds the row
number as its final dash-separated decimal component. -/
theorem new_identifiers_pairwise_distinct :
    ∀ (input : Option (List CsvRow)) (rows : List Row),
      build_id_mapping input = .ok rows →
      ((build_positional_mapping rows).map Prod.snd).Nodup := by
  intro input rows h
  unfold build_id_mapping at h
  split at h
  · cases h
  · rename_i csv
    split at h
    · cases h
    · rename_i raw hload
      cases h
      have hnd : (raw.map Row.row_num).Nodup := (load_rows_nodup csv 1 raw hload).1
      have hperm : ((sortByRank raw).map Row.row_num).Perm (raw.map Row.row_num) :=
        List.Perm.map Row.row_num (sortByRank_perm raw)
      have hnd2 : ((sortByRank raw).map Row.row_num).Nodup :=
        (List.Perm.nodup_iff hperm).mpr hnd
      have hnd3 : (((sortByRank raw).take (WORDS_PER_LESSON * 40)).map Row.row_num).Nodup := by
        rw [List.map_take]
        exact List.Nodup.sublist (List.take_sublist _ _) hnd2
      exact bpm_snd_nodup hnd3

def csvC2 : List CsvRow :=
  [ [((("wType").data), (("内").data)), ((("rank").data), (("9").data)),
     ((("lemma").data), (("Z").data))],
    [((("wType").data), (("外").data)), ((("rank").data), (("1").data)),
     ((("lemma").data), (("X").data))],
    [((("wType").data), (("外").data)), ((("rank").data), (("2").data)),
     ((("lemma").data), (("X").data))] ]

def rowsC2 : List Row := [⟨1, 2, ("X").data⟩, ⟨2, 3, ("X").data⟩]

theorem new_identifiers_pairwise_distinct_witness :
    build_id_mapping (some csvC2) = .ok rowsC2 ∧
    ((build_positional_mapping rowsC2).map Prod.snd).Nodup :=
  ⟨by rfl, new_identifiers_pairwise_distinct (some csvC2) rowsC2 (by rfl)⟩

/-- The exact card identifier line the rewriter emits (line 126). -/
def mkCardLine (w : Str) : Str := '-' :: ' ' :: 'i' :: 'd' :: ':' :: ' ' :: w

/-- Two lines are related when they are equal, or both are identifier
declaration lines; rewriting a card file only moves along this relation. -/
def LineRel (a b : Str) : Prop :=
  a = b ∨ ∃ o n, a = mkCardLine o ∧ b = mkCardLine n ∧ idShape o = true ∧ idShape n = true

theorem lineRel_refl (a : Str) : LineRel a a := Or.inl rfl

theorem lineRel_symm {a b : Str} (h : LineRel a b) : LineRel b a := by
  rcases h with rfl | ⟨o, n, ha, hb, ho, hn⟩
  · exact Or.inl rfl
  · exact Or.inr ⟨n, o, hb, ha, hn, ho⟩

theorem lineRel_matchAnswer {a b : Str} (h : LineRel a b) :
    matchAnswer a = matchAnswer b := by
  rcases h with rfl | ⟨o, n, rfl, rfl, _, _⟩
  · rfl
  · rfl

theorem pyStrip_cardLine_ne_answers (w : Str) :
    ¬ pyStrip (mkCardLine w) = ("answers:").data := by
  obtain ⟨t, ht⟩ := pyStrip_cardId w
  intro hc
  rw [show pyStrip (mkCardLine w) = pyStrip ('-' :: ' ' :: 'i' :: 'd' :: ':' :: ' ' :: w) from rfl,
      ht] at hc
  cases hc

theorem lineRel_strip_answers {a b : Str} (h : LineRel a b) :
    (pyStrip a = ("answers:").data) ↔ (pyStrip b = ("answers:").data) := by
  rcases h with rfl | ⟨o, n, rfl, rfl, _, _⟩
  · exact Iff.rfl
  · exact ⟨fun hc => absurd hc (pyStrip_cardLine_ne_answers o),
           fun hc => absurd hc (pyStrip_cardLine_ne_answers n)⟩

theorem findLemmaAux_rel :
    ∀ {rest rest' : List Str}, List.Forall₂ LineRel rest rest' →
    ∀ {prev prev' : Str}, LineRel prev prev' → ∀ (fuel : Nat),
    findLemmaAux prev rest fuel = findLemmaAux prev' rest' fuel := by
  intro rest rest' hF
  induction hF with
  | nil =>
    intro prev prev' hp fuel
    cases fuel <;> rfl
  | cons hab hF ih =>
    rename_i a b l1 l2
    intro prev prev' hp fuel
    cases fuel with
    | zero => rfl
    | succ fuel =>
      simp only [findLemmaAux]
      rw [← lineRel_matchAnswer hab]
      cases hma : matchAnswer a with
      | none => exact ih hab fuel
      | some cap =>
        simp only []
        by_cases hans : pyStrip prev = ("answers:").data
        · rw [if_pos hans, if_pos ((lineRel_strip_answers hp).mp hans)]
        · rw [if_neg hans, if_neg (fun hc => hans ((lineRel_strip_answers hp).mpr hc))]
          exact ih hab fuel

theorem blm_values_shaped (rows : List Row) :
    ∀ e ∈ build_lemma_mapping rows, idShape e.2 = true := by
  intro e he
  obtain ⟨t, ht, rfl⟩ := blm_mem he
  exact idShape_mkId _ _

theorem bpm_values_shaped : ∀ {rows : List Row} {s : Nat},
    ∀ p ∈ build_positional_mapping_aux s rows, idShape p.2 = true := by
  intro rows
  induction rows with
  | nil => intro s p hp; cases hp
  | cons w ws ih =>
    intro s p hp
    rcases List.mem_cons.mp hp with rfl | hmem
    · exact idShape_mkId _ _
    · exact ih p hmem

theorem lessons_for_sub : ∀ {pm : List (Str × Str)} {n i : Nat} {p : Str × Str},
    p ∈ lessons_for_aux n i pm → p ∈ pm := by
  intro pm
  induction pm with
  | nil => intro n i p hp; cases hp
  | cons q qs ih =>
    intro n i p hp
    unfold lessons_for_aux at hp
    by_cases hc : lessonOf i = n
    · rw [if_pos hc] at hp
      rcases List.mem_cons.mp hp with rfl | hmem
      · exact List.mem_cons_self p qs
      · exact List.mem_cons_of_mem q (ih hmem)
    · rw [if_neg hc] at hp
      exact List.mem_cons_of_mem q (ih hp)

theorem ucl_rel (m : List ((Str × Str) × Str))
    (hsh : ∀ e ∈ m, idShape e.2 = true) :
    ∀ lines, List.Forall₂ LineRel lines (update_card_lines m lines).1 := by
  intro lines
  induction lines with
  | nil => exact List.Forall₂.nil
  | cons line rest ih =>
    cases h : matchCardId line with
    | none =>
      rw [ucl_cons_none h]
      exact List.Forall₂.cons (lineRel_refl line) ih
    | some old =>
      cases hk : (findLemma line rest).bind (fun lm => dlookup m (old, lm)) with
      | none =>
        rw [ucl_cons_nokey h hk]
        exact List.Forall₂.cons (lineRel_refl line) ih
      | some new =>
        by_cases hne : old = new
        · subst hne
          rw [ucl_cons_nochange h hk]
          exact List.Forall₂.cons (lineRel_refl line) ih
        · rw [ucl_cons_change h hk hne]
          obtain ⟨hline, hsho⟩ := matchCardId_some h
          have hshn : idShape new = true := by
            cases hfl : findLemma line rest with
            | none => rw [hfl] at hk; cases hk
            | some l =>
              rw [hfl] at hk
              have hk2 : dlookup m (old, l) = some new := hk
              exact hsh _ (dlookup_mem hk2)
          exact List.Forall₂.cons (Or.inr ⟨old, new, hline, rfl, hsho, hshn⟩) ih

theorem ucl_idempotent (m : List ((Str × Str) × Str))
    (hsh : ∀ e ∈ m, idShape e.2 = true)
    (hstab : ∀ e ∈ m, dlookup m e.1 = some e.2 → e.1.1 ≠ e.2 →
      dlookup m (e.2, e.1.2) = none ∨ dlookup m (e.2, e.1.2) = some e.2) :
    ∀ lines, update_card_lines m (update_card_lines m lines).1 =
      ((update_card_lines m lines).1, 0) := by
  intro lines
  induction lines with
  | nil => rfl
  | cons line rest ih =>
    have hF : List.Forall₂ LineRel rest (update_card_lines m rest).1 := ucl_rel m hsh rest
    have hFrel : ∀ (p : Str), LineRel p p →
        findLemma p (update_card_lines m rest).1 = findLemma p rest :=
      fun p hp => (findLemmaAux_rel (hF.flip.imp (fun _ _ h => lineRel_symm h)) hp 9)
    cases h : matchCardId line with
    | none =>
      rw [ucl_cons_none h, ucl_cons_none h, ih]
    | some old =>
      cases hk : (findLemma line rest).bind (fun lm => dlookup m (old, lm)) with
      | none =>
        rw [ucl_cons_nokey h hk]
        have hk2 : (findLemma line (update_card_lines m rest).1).bind
            (fun lm => dlookup m (old, lm)) = none := by
          rw [hFrel line (lineRel_refl line)]
          exact hk
        rw [ucl_cons_nokey h hk2, ih]
      | some new =>
        by_cases hne : old = new
        · subst hne
          rw [ucl_cons_nochange h hk]
          have hk2 : (findLemma line (update_card_lines m rest).1).bind
              (fun lm => dlookup m (old, lm)) = some old := by
            rw [hFrel line (lineRel_refl line)]
            exact hk
          rw [ucl_cons_nochange h hk2, ih]
        · rw [ucl_cons_change h hk hne]
          obtain ⟨hline, hsho⟩ := matchCardId_some h
          cases hfl : findLemma line rest with
          | none => rw [hfl] at hk; cases hk
          | some lm =>
            rw [hfl] at hk
            have hk2 : dlookup m (old, lm) = some new := hk
            have hshn : idShape new = true := hsh _ (dlookup_mem hk2)
            have hmc : matchCardId (mkCardLine new) = some new := matchCardId_mk hshn
            have hrel : LineRel (mkCardLine new) line :=
              Or.inr ⟨new, old, rfl, hline, hshn, hsho⟩
            have hfl2 : findLemma (mkCardLine new) (update_card_lines m rest).1 =
                findLemma line rest :=
              findLemmaAux_rel (hF.flip.imp (fun _ _ h2 => lineRel_symm h2)) hrel 9
            have hstab2 := hstab ((old, lm), new) (dlookup_mem hk2) hk2 hne
            rcases hstab2 with hnone | hsame
            · have hk3 : (findLemma (mkCardLine new) (update_card_lines m rest).1).bind
                  (fun l2 => dlookup m (new, l2)) = none := by
                rw [hfl2, hfl]
                exact hnone
              rw [show ('-' :: ' ' :: 'i' :: 'd' :: ':' :: ' ' :: new) = mkCardLine new from rfl,
                  ucl_cons_nokey hmc hk3, ih]
            · have hk3 : (findLemma (mkCardLine new) (update_card_lines m rest).1).bind
                  (fun l2 => dlookup m (new, l2)) = some new := by
                rw [hfl2, hfl]
                exact hsame
              rw [show ('-' :: ' ' :: 'i' :: 'd' :: ':' :: ' ' :: new) = mkCardLine new from rfl,
                  ucl_cons_nochange hmc hk3, ih]

theorem ull_idempotent (pairs : List (Str × Str))
    (hsh : ∀ p ∈ pairs, idShape p.2 = true) :
    ∀ (lines : List Str) (b : Bool) (idx : Nat),
      update_lesson_lines pairs b idx (update_lesson_lines pairs b idx lines).1 =
      ((update_lesson_lines pairs b idx lines).1, 0) := by
  intro lines
  induction lines with
  | nil => intro b idx; rfl
  | cons line rest ih =>
    intro b idx
    by_cases hh : isIdsHeader line = true
    · rw [ull_header hh, ull_header hh, ih true idx]
    · rw [Bool.not_eq_true] at hh
      cases b with
      | false => rw [ull_outside hh, ull_outside hh, ih false idx]
      | true =>
        cases hm : matchLessonId line with
        | some p =>
          obtain ⟨ind, old⟩ := p
          by_cases hidx : idx < pairs.length
          · by_cases hne : old = (pairs.getD idx ([], [])).2
            · rw [ull_id_nochange hh hm hidx hne, ull_id_nochange hh hm hidx hne,
                  ih true (idx + 1)]
            · rw [ull_id_change hh hm hidx hne]
              obtain ⟨ws, hwne, hwsp, hind, hlineq, hsho⟩ := matchLessonId_some hm
              have hmem : pairs.getD idx ([], []) ∈ pairs := by
                rw [List.getD_eq_getElem pairs ([], []) hidx]
                exact List.getElem_mem hidx
              have hshn : idShape (pairs.getD idx ([], [])).2 = true := hsh _ hmem
              have hline2 : ind ++ (pairs.getD idx ([], [])).2 =
                  ws ++ '-' :: ' ' :: (pairs.getD idx ([], [])).2 := by
                rw [hind]
                simp
              have hdrop2 : (ind ++ (pairs.getD idx ([], [])).2).dropWhile pyIsSpace =
                  '-' :: ' ' :: (pairs.getD idx ([], [])).2 := by
                rw [hline2]
                exact dropWhile_append_all _ hwsp (by decide)
              have hh2 : isIdsHeader (ind ++ (pairs.getD idx ([], [])).2) = false :=
                isIdsHeader_of_dash hdrop2
              have hm2 : matchLessonId (ind ++ (pairs.getD idx ([], [])).2) =
                  some (ind, (pairs.getD idx ([], [])).2) := by
                rw [hline2, matchLessonId_mk hwne hwsp hshn, hind]
              rw [ull_id_nochange hh2 hm2 hidx rfl, ih true (idx + 1)]
          · rw [ull_id_exhausted hh hm hidx, ull_id_exhausted hh hm hidx, ih true (idx + 1)]
        | none =>
          cases he : isExitLine line with
          | true => rw [ull_exit hh hm he, ull_exit hh hm he, ih false idx]
          | false => rw [ull_inert hh hm he, ull_inert hh hm he, ih true idx]

theorem update_card_file_idem (m : List ((Str × Str) × Str))
    (hsh : ∀ e ∈ m, idShape e.2 = true)
    (hstab : ∀ e ∈ m, dlookup m e.1 = some e.2 → e.1.1 ≠ e.2 →
      dlookup m (e.2, e.1.2) = none ∨ dlookup m (e.2, e.1.2) = some e.2)
    (lines : List Str) :
    update_card_file m (update_card_file m lines).1 =
      ((update_card_file m lines).1, 0, false) := by
  by_cases hc : (update_card_lines m lines).2 > 0
  · have h1 : (update_card_file m lines).1 = (update_card_lines m lines).1 := by
      unfold update_card_file
      simp only []
      rw [if_pos hc]
    rw [h1]
    unfold update_card_file
    simp only []
    rw [ucl_idempotent m hsh hstab lines]
    simp
  · have h1 : (update_card_file m lines).1 = lines := by
      unfold update_card_file
      simp only []
      rw [if_neg hc]
    rw [h1]
    unfold update_card_file
    simp only []
    rw [if_neg hc]
    have h0 : (update_card_lines m lines).2 = 0 := by omega
    rw [h0]

theorem ucf_snd_zero (m : List ((Str × Str) × Str))
    (hsh : ∀ e ∈ m, idShape e.2 = true)
    (hstab : ∀ e ∈ m, dlookup m e.1 = some e.2 → e.1.1 ≠ e.2 →
      dlookup m (e.2, e.1.2) = none ∨ dlookup m (e.2, e.1.2) = some e.2)
    (f : List Str) :
    (update_card_lines m (update_card_file m f).1).2 = 0 := by
  by_cases hc : (update_card_lines m f).2 > 0
  · have h1 : (update_card_file m f).1 = (update_card_lines m f).1 := by
      unfold update_card_file
      simp only []
      rw [if_pos hc]
    rw [h1, ucl_idempotent m hsh hstab f]
  · have h1 : (update_card_file m f).1 = f := by
      unfold update_card_file
      simp only []
      rw [if_neg hc]
    rw [h1]
    omega

theorem update_card_files_idem (m : List ((Str × Str) × Str))
    (hsh : ∀ e ∈ m, idShape e.2 = true)
    (hstab : ∀ e ∈ m, dlookup m e.1 = some e.2 → e.1.1 ≠ e.2 →
      dlookup m (e.2, e.1.2) = none ∨ dlookup m (e.2, e.1.2) = some e.2)
    (files : List (List Str)) :
    update_card_files m (update_card_files m files).1 =
      ((update_card_files m files).1, 0) := by
  unfold update_card_files
  simp only [List.map_map]
  rw [Prod.mk.injEq]
  constructor
  · apply List.map_congr_left
    intro f hf
    simp only [Function.comp_apply]
    have := update_card_file_idem m hsh hstab f
    rw [this]
  · apply List.sum_eq_zero
    intro x hx
    obtain ⟨f, hf, rfl⟩ := List.mem_map.mp hx
    simp only [Function.comp_apply]
    exact ucf_snd_zero m hsh hstab f

theorem update_lesson_file_idem (pairs : List (Str × Str))
    (hsh : ∀ p ∈ pairs, idShape p.2 = true) (lines : List Str) :
    update_lesson_file pairs (update_lesson_file pairs lines).1 =
      ((update_lesson_file pairs lines).1, 0, false) := by
  by_cases hc : (update_lesson_lines pairs false 0 lines).2 > 0
  · have h1 : (update_lesson_file pairs lines).1 = (update_lesson_lines pairs false 0 lines).1 := by
      unfold update_lesson_file
      simp only []
      rw [if_pos hc]
    rw [h1]
    unfold update_lesson_file
    simp only []
    rw [ull_idempotent pairs hsh lines false 0]
    simp
  · have h1 : (update_lesson_file pairs lines).1 = lines := by
      unfold update_lesson_file
      simp only []
      rw [if_neg hc]
    rw [h1]
    unfold update_lesson_file
    simp only []
    rw [if_neg hc]
    have h0 : (update_lesson_lines pairs false 0 lines).2 = 0 := by omega
    rw [h0]

theorem update_one_lesson_file_idem (pm : List (Str × Str))
    (hshpm : ∀ p ∈ pm, idShape p.2 = true) (f : LessonFile) :
    update_one_lesson_file pm (update_one_lesson_file pm f).1 =
      ((update_one_lesson_file pm f).1, 0) := by
  obtain ⟨num, lines⟩ := f
  cases num with
  | none => rfl
  | some n =>
    by_cases hemp : (lessons_for pm n).isEmpty = true
    · have h1 : update_one_lesson_file pm (some n, lines) = ((some n, lines), 0) := by
        unfold update_one_lesson_file
        simp only []
        rw [if_pos hemp]
      rw [h1, h1]
    · have hsh2 : ∀ p ∈ lessons_for pm n, idShape p.2 = true :=
        fun p hp => hshpm p (lessons_for_sub hp)
      have h1 : update_one_lesson_file pm (some n, lines) =
          ((some n, (update_lesson_file (lessons_for pm n) lines).1),
           (update_lesson_file (lessons_for pm n) lines).2.1) := by
        unfold update_one_lesson_file
        simp only []
        rw [if_neg hemp]
      have h2 : update_one_lesson_file pm
          (some n, (update_lesson_file (lessons_for pm n) lines).1) =
          ((some n, (update_lesson_file (lessons_for pm n) lines).1), 0) := by
        unfold update_one_lesson_file
        simp only []
        rw [if_neg hemp,
            update_lesson_file_idem (lessons_for pm n) hsh2 lines]
      rw [h1]
      simp only []
      rw [h2]

theorem update_lesson_files_idem (pm : List (Str × Str))
    (hshpm : ∀ p ∈ pm, idShape p.2 = true) (files : List LessonFile) :
    update_lesson_files pm (update_lesson_files pm files).1 =
      ((update_lesson_files pm files).1, 0) := by
  unfold update_lesson_files
  simp only [List.map_map]
  rw [Prod.mk.injEq]
  constructor
  · apply List.map_congr_left
    intro f hf
    simp only [Function.comp_apply]
    rw [update_one_lesson_file_idem pm hshpm f]
  · apply List.sum_eq_zero
    intro x hx
    obtain ⟨f, hf, rfl⟩ := List.mem_map.mp hx
    simp only [Function.comp_apply]
    rw [update_one_lesson_file_idem pm hshpm f]

def cardC1 : List Str :=
  [(("- id: ckw-l01-1").data), (("  answers:").data), (("  - X").data)]

/-- C1 counterexample: on the loadable corpus csvC2 (two kept foreign rows
with ranks 1 and 2, physical rows 2 and 3, both with lemma X) the content
map sends (ckw-l01-1, X) to ckw-l01-2 and (ckw-l01-2, X) to ckw-l01-3; a
card file holding the first record is rewritten to ckw-l01-2 by the first
run, and the second run rewrites it again (one further change), so running
the migration twice is not a no-op. -/
theorem migration_not_idempotent_counterexample :
    build_id_mapping (some csvC2) = .ok rowsC2 ∧
    (update_card_files (build_lemma_mapping rowsC2) [cardC1]).1 =
      [[(("- id: ckw-l01-2").data), (("  answers:").data), (("  - X").data)]] ∧
    (update_card_files (build_lemma_mapping rowsC2)
      (update_card_files (build_lemma_mapping rowsC2) [cardC1]).1).2 = 1 ∧
    (1 : Nat) ≠ 0 :=
  ⟨by rfl, by decide, by decide, by decide⟩

/-- C1 amended: the lesson-file side of the migration is unconditionally
idempotent, and the card-file side is idempotent whenever the content map
is stable on its own outputs: every winning binding from (o, l) to v with
o distinct from v has either no binding at the key (v, l) or one mapping it
back to v.  (The counterexample shows the unrestricted claim fails when a
chain (o, l) to v, (v, l) to w with w distinct from v exists.)  Under that
hypothesis a second run changes no file and reports zero changes; in both
rewriters pairs whose old identifier equals the new identifier are never
counted as changes. -/
theorem migration_idempotent_when_map_stable :
    ∀ (rows : List Row) (cards : List (List Str)) (lessonFiles : List LessonFile),
      (∀ e ∈ build_lemma_mapping rows,
        dlookup (build_lemma_mapping rows) e.1 = some e.2 → e.1.1 ≠ e.2 →
        dlookup (build_lemma_mapping rows) (e.2, e.1.2) = none ∨
        dlookup (build_lemma_mapping rows) (e.2, e.1.2) = some e.2) →
      update_card_files (build_lemma_mapping rows)
          (update_card_files (build_lemma_mapping rows) cards).1 =
        ((update_card_files (build_lemma_mapping rows) cards).1, 0) ∧
      update_lesson_files (build_positional_mapping rows)
          (update_lesson_files (build_positional_mapping rows) lessonFiles).1 =
        ((update_lesson_files (build_positional_mapping rows) lessonFiles).1, 0) := by
  intro rows cards lessonFiles hstab
  constructor
  · exact update_card_files_idem (build_lemma_mapping rows)
      (blm_values_shaped rows) hstab cards
  · exact update_lesson_files_idem (build_positional_mapping rows)
      (fun p hp => bpm_values_shaped p hp) lessonFiles

def rowsC1W : List Row := [⟨1, 1, ("X").data⟩]

theorem migration_idempotent_when_map_stable_witness :
    update_card_files (build_lemma_mapping rowsC1W)
        (update_card_files (build_lemma_mapping rowsC1W) [cardC1]).1 =
      ((update_card_files (build_lemma_mapping rowsC1W) [cardC1]).1, 0) ∧
    update_lesson_files (build_positional_mapping rowsC1W)
        (update_lesson_files (build_positional_mapping rowsC1W)
          [(some 1, [(("ids:").data), (("  - ckw-l01-5").data)])]).1 =
      ((update_lesson_files (build_positional_mapping rowsC1W)
          [(some 1, [(("ids:").data), (("  - ckw-l01-5").data)])]).1, 0) :=
  migration_idempotent_when_map_stable rowsC1W [cardC1]
    [(some 1, [(("ids:").data), (("  - ckw-l01-5").data)])] (by decide)
